import Mathlib

/-!
# to_vps_sync_go: directory synchronisation engine

A shallow embedding of the change-detection and synchronisation engine
(`syncer.go`, `watcher.go`) together with the parts of the Go standard
library it calls (`path/filepath`, `strings`, `unicode/utf8`), and the
properties of the engine proved over that embedding.

Conventions.

* A Go `string` is a finite sequence of bytes: `GoString := List UInt8`.
  `go "..."` is the UTF-8 encoding of a Lean string literal.
* `path/filepath` is the Unix flavour (`Separator = '/'`, no volume names).
* The event loop of the watcher and the functions of its timers are
  goroutines of their own: a raw event being handled, a timer firing and the
  function of a fired timer running are separate steps of the watcher, taken
  in any order.
* Loops whose index advances by a data-dependent amount carry a fuel
  argument initialised with the length of the input they consume; every
  iteration consumes at least one byte.
-/

namespace SyncGo

/-! ## Go strings -/

/-- A Go string: a sequence of bytes. -/
abbrev GoString := List UInt8

/-- The bytes (UTF-8) of a string literal. -/
def go (s : String) : GoString := s.toList.flatMap String.utf8EncodeChar

/-- The byte `/`, `filepath.Separator` on Unix. -/
def Separator : UInt8 := 47
/-- The byte `\`. -/
def backslash : UInt8 := 92
/-- The byte `.`. -/
def dot : UInt8 := 46
/-- The byte `*`. -/
def star : UInt8 := 42
/-- The byte `?`. -/
def question : UInt8 := 63
/-- The byte `[`. -/
def lbracket : UInt8 := 91
/-- The byte `]`. -/
def rbracket : UInt8 := 93
/-- The byte `^`. -/
def caret : UInt8 := 94
/-- The byte `-`. -/
def minus : UInt8 := 45

/-- The errors the engine can observe from its collaborators. -/
inductive GoError where
  | ErrBadPattern
  | relError
  | notExist
  | alreadyRunning
  | connectionFailed
  | watcherStartFailed
  | watcherClosed
  | other (code : Nat)
  deriving DecidableEq, Repr

/-! ## package strings -/

/-- `strings.HasPrefix(s, prefix)`. -/
def hasPrefix : GoString → GoString → Bool
  | _, [] => true
  | [], _ :: _ => false
  | c :: s, p :: ps => c == p && hasPrefix s ps

/-- `strings.Contains(s, substr)`: some suffix of `s` starts with `substr`. -/
def stringsContains : GoString → GoString → Bool
  | [], substr => hasPrefix [] substr
  | c :: s, substr => hasPrefix (c :: s) substr || stringsContains s substr

/-- `strings.ReplaceAll(s, "\\", "/")`: old and new are single bytes, so the
replacement is byte by byte. -/
def replaceBackslash (s : GoString) : GoString :=
  s.map fun c => if c = backslash then Separator else c

/-! ## package unicode/utf8 -/

/-- `utf8.RuneError`. -/
def RuneError : Nat := 0xFFFD

/-- Is `b` a continuation byte in the range `lo..hi`? -/
def inRange (lo hi : Nat) (b : UInt8) : Bool := lo ≤ b.toNat && b.toNat ≤ hi

/-- `utf8.DecodeRuneInString(s)`: the first rune of `s` and its width in
bytes; `(RuneError, 0)` on the empty string and `(RuneError, 1)` on an invalid
encoding. The `first` and `acceptRanges` tables are unfolded by lead byte. -/
def DecodeRuneInString (s : GoString) : Nat × Nat :=
  match s with
  | [] => (RuneError, 0)
  | s0 :: t =>
    let b0 := s0.toNat
    if b0 < 0x80 then (b0, 1)
    else if b0 < 0xC2 then (RuneError, 1)
    else if b0 < 0xE0 then
      match t with
      | s1 :: _ =>
        if inRange 0x80 0xBF s1 then ((b0 % 0x20) * 0x40 + s1.toNat % 0x40, 2)
        else (RuneError, 1)
      | _ => (RuneError, 1)
    else if b0 < 0xF0 then
      let lo := if b0 = 0xE0 then 0xA0 else 0x80
      let hi := if b0 = 0xED then 0x9F else 0xBF
      match t with
      | s1 :: s2 :: _ =>
        if !inRange lo hi s1 then (RuneError, 1)
        else if !inRange 0x80 0xBF s2 then (RuneError, 1)
        else ((b0 % 0x10) * 0x1000 + (s1.toNat % 0x40) * 0x40 + s2.toNat % 0x40, 3)
      | _ => (RuneError, 1)
    else if b0 < 0xF5 then
      let lo := if b0 = 0xF0 then 0x90 else 0x80
      let hi := if b0 = 0xF4 then 0x8F else 0xBF
      match t with
      | s1 :: s2 :: s3 :: _ =>
        if !inRange lo hi s1 then (RuneError, 1)
        else if !inRange 0x80 0xBF s2 then (RuneError, 1)
        else if !inRange 0x80 0xBF s3 then (RuneError, 1)
        else ((b0 % 0x08) * 0x40000 + (s1.toNat % 0x40) * 0x1000
                + (s2.toNat % 0x40) * 0x40 + s3.toNat % 0x40, 4)
      | _ => (RuneError, 1)
    else (RuneError, 1)

/-! ## package path/filepath: Base and Match -/

/-- `filepath.Base(path)`: the last element of `path`, trailing separators
removed first; `"."` for the empty path and `"/"` for a path of separators. -/
def filepathBase (path : GoString) : GoString :=
  if path = [] then [dot]
  else
    -- strip trailing slashes
    let stripped := (path.reverse.dropWhile (· == Separator)).reverse
    -- find the last element
    let last := (stripped.reverse.takeWhile (· != Separator)).reverse
    if last = [] then [Separator] else last

/-- The scanning loop of `scanChunk`: the length-`i` prefix of the pattern up
to the first `*` outside a bracket expression, and the rest. -/
def scanChunkLoop : Bool → GoString → GoString × GoString
  | _, [] => ([], [])
  | inrange, c :: cs =>
    if c = backslash then
      match cs with
      | [] => ([c], [])
      | d :: ds =>
        let r := scanChunkLoop inrange ds
        (c :: d :: r.1, r.2)
    else if c = lbracket then
      let r := scanChunkLoop true cs
      (c :: r.1, r.2)
    else if c = rbracket then
      let r := scanChunkLoop false cs
      (c :: r.1, r.2)
    else if c = star then
      if inrange then
        let r := scanChunkLoop inrange cs
        (c :: r.1, r.2)
      else ([], c :: cs)
    else
      let r := scanChunkLoop inrange cs
      (c :: r.1, r.2)

/-- `scanChunk(pattern)`: `(star, chunk, rest)`, the next non-star chunk of
the pattern, possibly preceded by stars. -/
def scanChunk (pattern : GoString) : Bool × GoString × GoString :=
  let stripped := pattern.dropWhile (· == star)
  let r := scanChunkLoop false stripped
  (pattern.head? == some star, r.1, r.2)

/-- `getEsc(chunk)`: a possibly escaped rune of a character class and the
rest of the chunk. -/
def getEsc (chunk : GoString) : Except GoError (Nat × GoString) :=
  match chunk with
  | [] => .error .ErrBadPattern
  | c :: cs =>
    if c = minus ∨ c = rbracket then .error .ErrBadPattern
    else
      let chunk1 := if c = backslash then cs else c :: cs
      if chunk1 = [] then .error .ErrBadPattern
      else
        let d := DecodeRuneInString chunk1
        let nchunk := chunk1.drop d.2
        if d.1 = RuneError ∧ d.2 = 1 then .error .ErrBadPattern
        else if nchunk = [] then .error .ErrBadPattern
        else .ok (d.1, nchunk)

/-- The range loop of a character class in `matchChunk`: parses ranges up to
the closing bracket; returns whether `r` fell into one of them and the chunk
after the bracket. -/
def classLoop (r : Nat) : Nat → Bool → Nat → GoString → Except GoError (Bool × GoString)
  | 0, _, _, _ => .error .ErrBadPattern
  | fuel + 1, isMatch, nrange, chunk =>
    if chunk.head? = some rbracket ∧ 0 < nrange then .ok (isMatch, chunk.tail)
    else
      match getEsc chunk with
      | .error e => .error e
      | .ok (lo, chunk1) =>
        if chunk1.head? = some minus then
          match getEsc chunk1.tail with
          | .error e => .error e
          | .ok (hi, chunk2) =>
            classLoop r fuel (isMatch || (decide (lo ≤ r) && decide (r ≤ hi))) (nrange + 1) chunk2
        else
          classLoop r fuel (isMatch || (decide (lo ≤ r) && decide (r ≤ lo))) (nrange + 1) chunk1

/-- The loop of `matchChunk(chunk, s)`. `failed` records that the match has
failed; the loop then goes on checking that the chunk is well formed without
reading `s`. The result is an error, `none` (no match) or the rest of `s`. -/
def matchChunkLoop : Nat → Bool → GoString → GoString → Except GoError (Option GoString)
  | 0, _, _, _ => .error .ErrBadPattern
  | fuel + 1, failed, chunk, s =>
    match chunk with
    | [] => if failed then .ok none else .ok (some s)
    | c :: crest =>
      let failed := failed || s.isEmpty
      if c = lbracket then
        let r := if failed then 0 else (DecodeRuneInString s).1
        let s1 := if failed then s else s.drop (DecodeRuneInString s).2
        let negated := crest.head? == some caret
        let chunk1 := if negated then crest.tail else crest
        match classLoop r chunk1.length false 0 chunk1 with
        | .error e => .error e
        | .ok (isMatch, chunk2) =>
          matchChunkLoop fuel (failed || (isMatch == negated)) chunk2 s1
      else if c = question then
        if failed then matchChunkLoop fuel failed crest s
        else
          matchChunkLoop fuel (s.head? == some Separator) crest
            (s.drop (DecodeRuneInString s).2)
      else if c = backslash then
        match crest with
        | [] => .error .ErrBadPattern
        | d :: drest =>
          if failed then matchChunkLoop fuel failed drest s
          else matchChunkLoop fuel (s.head? != some d) drest s.tail
      else
        if failed then matchChunkLoop fuel failed crest s
        else matchChunkLoop fuel (s.head? != some c) crest s.tail

/-- `matchChunk(chunk, s)`: does `chunk` match the beginning of `s`? -/
def matchChunk (chunk s : GoString) : Except GoError (Option GoString) :=
  matchChunkLoop (chunk.length + 1) false chunk s

/-- The star loop of `Match`: look for a match of `chunk` skipping `i+1`
bytes of `name`, never skipping a separator. `last` says that the pattern is
exhausted, in which case the match must exhaust the name. -/
def starLoop (chunk : GoString) (last : Bool) : GoString → Except GoError (Option GoString)
  | [] => .ok none
  | c :: rest =>
    if c = Separator then .ok none
    else
      match matchChunk chunk rest with
      | .error e => .error e
      | .ok (some t) =>
        if last && !t.isEmpty then starLoop chunk last rest else .ok (some t)
      | .ok none => starLoop chunk last rest

/-- The `Pattern` loop of `filepath.Match`. -/
def matchLoop : Nat → GoString → GoString → Except GoError Bool
  | 0, _, _ => .error .ErrBadPattern
  | fuel + 1, pattern, name =>
    if pattern = [] then .ok name.isEmpty
    else
      let sc := scanChunk pattern
      let isStar := sc.1
      let chunk := sc.2.1
      let rest := sc.2.2
      if isStar ∧ chunk = [] then .ok (!stringsContains name [Separator])
      else
        match matchChunk chunk name with
        | .error e => .error e
        | .ok r =>
          match (match r with
                 | some t => if t = [] ∨ rest ≠ [] then some t else none
                 | none => none) with
          | some t => matchLoop fuel rest t
          | none =>
            if isStar then
              match starLoop chunk (rest = []) name with
              | .error e => .error e
              | .ok (some t) => matchLoop fuel rest t
              | .ok none => .ok false
            else .ok false

/-- `filepath.Match(pattern, name)`: `(matched, err)`; the only error is
`ErrBadPattern`. -/
def filepathMatch (pattern name : GoString) : Except GoError Bool :=
  matchLoop (pattern.length + 1) pattern name

/-! ## package path/filepath: Clean, Join and Rel -/

/-- The backtracking loop of `Clean` on a `..` element, entered after
`out.w--` with `w` the decremented index: `for out.w > dotdot &&
!IsPathSeparator(out.index(out.w)) { out.w-- }`; returns the final `out.w`. -/
def backtrackLoop (out : GoString) (dotdot : Nat) : Nat → Nat
  | 0 => 0
  | w + 1 =>
    if dotdot < w + 1 ∧ out.get? (w + 1) ≠ some Separator then backtrackLoop out dotdot w
    else w + 1

/-- The main loop of `filepath.Clean`: reads the elements of `path` (the part
not yet read, `path[r:]`) and writes the output buffer `out` (`out.w` is
`out.length`); `dotdot` is the index in `out` where `..` must stop. -/
def cleanLoop (rooted : Bool) : Nat → GoString → GoString → Nat → GoString
  | 0, _, out, _ => out
  | fuel + 1, path, out, dotdot =>
    match path with
    | [] => out
    | c :: rest =>
      if c = Separator then
        -- empty path element
        cleanLoop rooted fuel rest out dotdot
      else if c = dot ∧ (rest = [] ∨ rest.head? = some Separator) then
        -- . element
        cleanLoop rooted fuel rest out dotdot
      else if c = dot ∧ rest.head? = some dot
          ∧ (rest.tail = [] ∨ rest.tail.head? = some Separator) then
        -- .. element: remove to last separator
        if dotdot < out.length then
          cleanLoop rooted fuel rest.tail
            (out.take (backtrackLoop out dotdot (out.length - 1))) dotdot
        else if rooted = false then
          let out1 := (if 0 < out.length then out ++ [Separator] else out) ++ [dot, dot]
          cleanLoop rooted fuel rest.tail out1 out1.length
        else cleanLoop rooted fuel rest.tail out dotdot
      else
        -- real path element: add slash if needed, copy element
        let out1 :=
          if (rooted = true ∧ out.length ≠ 1) ∨ (rooted = false ∧ out.length ≠ 0)
          then out ++ [Separator] else out
        cleanLoop rooted fuel ((c :: rest).dropWhile (· != Separator))
          (out1 ++ (c :: rest).takeWhile (· != Separator)) dotdot

/-- `filepath.Clean(path)`: the shortest path name equivalent to `path` by
purely lexical processing. -/
def filepathClean (path : GoString) : GoString :=
  if path = [] then [dot]
  else
    let rooted : Bool := path.head? == some Separator
    let out :=
      if rooted then cleanLoop true path.length path.tail [Separator] 1
      else cleanLoop false path.length path [] 0
    -- turn empty string into "."
    if out = [] then [dot] else out

/-- `filepath.Join(elem...)`: the elements from the first non-empty one on,
joined with the separator and cleaned; the empty string when all are empty. -/
def filepathJoin (elem : List GoString) : GoString :=
  match elem.dropWhile (· == []) with
  | [] => []
  | e :: es => filepathClean ([Separator].intercalate (e :: es))

/-- The element loop of `filepath.Rel`: positions `base[b0:]` and `targ[t0:]`
at the first differing elements. The state at the top of the loop is
`(base[b0:], targ[t0:])` with `bi = b0` and `ti = t0`; the result is
`(base[b0:], targ[t0:])` at the exit. Each turn consumes an element of the
base, so the length of the base is fuel enough. -/
def relLoop : Nat → GoString → GoString → GoString × GoString
  | 0, base, targ => (base, targ)
  | fuel + 1, base, targ =>
    if base = [] ∨ targ = [] then (base, targ)
    else
      let belem := base.takeWhile (· != Separator)
      let telem := targ.takeWhile (· != Separator)
      if telem ≠ belem then (base, targ)
      else relLoop fuel (base.drop (belem.length + 1)) (targ.drop (telem.length + 1))

/-- `filepath.Rel(basepath, targpath)`, Unix flavour: a relative path that is
lexically equivalent to `targpath` when joined to `basepath`. Both paths are
cleaned and `.` counts as the empty path; an error when one path is rooted
and the other is not, or when the elements left of the base after the common
elements start with `..` (the way up from there is not known lexically). -/
def filepathRel (basepath targpath : GoString) : Except GoError GoString :=
  let base := filepathClean basepath
  let targ := filepathClean targpath
  if targ = base then .ok [dot]
  else
    let base := if base = [dot] then [] else base
    let targ := if targ = [dot] then [] else targ
    let baseSlashed : Bool := base.head? == some Separator
    let targSlashed : Bool := targ.head? == some Separator
    if baseSlashed ≠ targSlashed then .error .relError
    else
      let r := relLoop base.length base targ
      if r.1.takeWhile (· != Separator) = [dot, dot] then .error .relError
      else if r.1 ≠ [] then
        -- Base elements left. Must go up before going down.
        let seps := r.1.count Separator
        .ok ([dot, dot] ++ (List.replicate seps [Separator, dot, dot]).flatten
              ++ (if r.2 ≠ [] then Separator :: r.2 else []))
      else .ok r.2

/-! ## Configuration (config.go) -/

/-- The fields of `Config` the engine reads. -/
structure Config where
  LocalDirectory : GoString
  RemoteDirectory : GoString
  IgnorePatterns : List GoString
  DeleteRemote : Bool
  SyncInterval : Int

/-! ## The ignore filter (syncer.go, watcher.go) -/

/-- The `range` loop of `shouldIgnoreFile` over the ignore patterns. -/
def shouldIgnoreLoop (filePath fileName : GoString) : List GoString → Bool
  | [] => false
  | pattern :: rest =>
    match filepathMatch pattern fileName with
    | .ok true => true
    | _ =>
      if stringsContains filePath pattern then true
      else shouldIgnoreLoop filePath fileName rest

/-- `DirectorySync.shouldIgnoreFile(filePath)`. -/
def DirectorySync.shouldIgnoreFile (config : Config) (filePath : GoString) : Bool :=
  let fileName := filepathBase filePath
  shouldIgnoreLoop filePath fileName config.IgnorePatterns

/-- The `range` loop of the watcher's `shouldIgnoreFile`. -/
def FileWatcher.shouldIgnoreLoop (filePath fileName : GoString) : List GoString → Bool
  | [] => false
  | pattern :: rest =>
    match filepathMatch pattern fileName with
    | .ok true => true
    | _ =>
      if stringsContains filePath pattern then true
      else FileWatcher.shouldIgnoreLoop filePath fileName rest

/-- `FileWatcher.shouldIgnoreFile(filePath)`. -/
def FileWatcher.shouldIgnoreFile (config : Config) (filePath : GoString) : Bool :=
  let fileName := filepathBase filePath
  FileWatcher.shouldIgnoreLoop filePath fileName config.IgnorePatterns

/-! ## Observable behaviour: calls, log lines and the environment -/

/-- The lines written to the logger, one constructor per `Printf` call site. -/
inductive LogLine where
  | relFailed (err : GoError)
  | uploadAttemptFailed (attempt maxRetries : Nat) (err : GoError)
  | reconnecting
  | reconnectFailed (err : GoError)
  | reconnected
  | remoteDeleteFailed (remotePath : GoString) (err : GoError)
  | remoteDeleted (remotePath : GoString)
  | statFailed (localPath : GoString) (err : GoError)
  | uploadFailed (localPath : GoString) (err : GoError)
  | synced (localPath remotePath : GoString)
  | initialSyncStart
  | accessFailed (path : GoString) (err : GoError)
  | initialSyncFileFailed (localPath : GoString) (err : GoError)
  | serviceStarted
  | localDirectory (dir : GoString)
  | remoteDirectory (dir : GoString)
  | initialSyncFailed (err : GoError)
  | serviceStopped
  | watcherStarted (dir : GoString)
  | watchAccessFailed (path : GoString) (err : GoError)
  | watchAddFailed (path : GoString) (err : GoError)
  | watchAdded (path : GoString)
  | queueFull (filePath : GoString)
  deriving DecidableEq, Repr

/-- The calls the orchestrator makes: to the SFTP session, to the logger, to
the clock, to the Go runtime, and to its own `uploadFile`. -/
inductive Call where
  | sftpIsConnected
  | sftpReconnect
  | sftpUploadFile (localPath remotePath : GoString)
  | sftpRemoveFile (remotePath : GoString)
  | sftpClose
  | uploadFile (localPath remotePath : GoString)
  | Printf (line : LogLine)
  | Sleep (seconds : Nat)
  | goProcessChanges
  | goKeepAlive
  deriving DecidableEq, Repr

/-- The calls made so far, oldest first. -/
abbrev Trace := List Call

/-- Is the call `sftpClient.IsConnected()`? -/
def Call.isIsConnected : Call → Bool
  | .sftpIsConnected => true
  | _ => false

/-- Is the call `sftpClient.Reconnect()`? -/
def Call.isReconnect : Call → Bool
  | .sftpReconnect => true
  | _ => false

/-- Is the call `sftpClient.UploadFile(..)`? -/
def Call.isSftpUpload : Call → Bool
  | .sftpUploadFile _ _ => true
  | _ => false

/-- Is the call `sftpClient.RemoveFile(..)`? -/
def Call.isSftpRemove : Call → Bool
  | .sftpRemoveFile _ => true
  | _ => false

/-- Is the call an entry into `DirectorySync.uploadFile`? -/
def Call.isUploadFile : Call → Bool
  | .uploadFile _ _ => true
  | _ => false

/-- Is the call the per-attempt failure line of `uploadFile`? -/
def Call.isAttemptFailedLog : Call → Bool
  | .Printf (.uploadAttemptFailed _ _ _) => true
  | _ => false

/-- The arguments of the `uploadFile` invocations of a trace, in order. -/
def uploadsOf (tr : Trace) : List (GoString × GoString) :=
  tr.filterMap fun c =>
    match c with
    | .uploadFile l r => some (l, r)
    | _ => none

/-- The arguments of the `sftpClient.RemoveFile` calls of a trace, in order. -/
def removesOf (tr : Trace) : List GoString :=
  tr.filterMap fun c =>
    match c with
    | .sftpRemoveFile r => some r
    | _ => none

/-- What `os.Stat` returns. -/
inductive StatResult where
  | info (isDir : Bool)
  | err (e : GoError)
  deriving DecidableEq, Repr

/-- A file-system entry as `filepath.Walk` sees it through `os.Lstat` and
`readDirNames` (names come sorted). -/
inductive FsNode where
  | file : FsNode
  | dir (entries : List (GoString × FsNode)) : FsNode
  | unreadableDir (err : GoError) : FsNode
  | lstatError (err : GoError) : FsNode

/-- `info.IsDir()` of an entry. -/
def FsNode.IsDir : FsNode → Bool
  | .dir _ => true
  | .unreadableDir _ => true
  | _ => false

/-- The environment of the engine: the outcome of the n-th call of each
session method, and the file system. -/
structure World where
  IsConnected : Nat → Bool
  Reconnect : Nat → Option GoError
  UploadFile : Nat → Option GoError
  RemoveFile : Nat → Option GoError
  Stat : GoString → StatResult
  fs : GoString → FsNode
  watcherAdd : GoString → Option GoError

/-! ## package path/filepath: Walk -/

/-- What a `WalkFunc` returns: `nil`, `filepath.SkipDir` or another error. -/
inductive WalkRet where
  | nil
  | SkipDir
  | err (e : GoError)
  deriving DecidableEq, Repr

/-- A `filepath.WalkFunc` acting on a state `σ`; `info` is `IsDir()` of the
entry, `none` when `Lstat` failed. -/
abbrev WalkFunc (σ : Type) := GoString → Option Bool → Option GoError → σ → WalkRet × σ

mutual
/-- The recursive `walk` of `filepath.Walk`. -/
def walk {σ : Type} (walkFn : WalkFunc σ) (path : GoString) : FsNode → σ → WalkRet × σ
  | .file, st => walkFn path (some false) none st
  | .lstatError e, st => walkFn path none (some e) st
  | .unreadableDir e, st => walkFn path (some true) (some e) st
  | .dir entries, st =>
    let r := walkFn path (some true) none st
    if r.1 ≠ .nil then r else walkNames walkFn path entries r.2
/-- The loop of `walk` over the names of a directory. -/
def walkNames {σ : Type} (walkFn : WalkFunc σ) (path : GoString) :
    List (GoString × FsNode) → σ → WalkRet × σ
  | [], st => (.nil, st)
  | (name, child) :: rest, st =>
    let filename := filepathJoin [path, name]
    match child with
    | .lstatError e =>
      let r := walkFn filename none (some e) st
      if r.1 ≠ .nil ∧ r.1 ≠ .SkipDir then r else walkNames walkFn path rest r.2
    | .file =>
      let r := walk walkFn filename .file st
      if r.1 ≠ .nil then r else walkNames walkFn path rest r.2
    | .unreadableDir e =>
      let r := walk walkFn filename (.unreadableDir e) st
      if r.1 ≠ .nil ∧ r.1 ≠ .SkipDir then r else walkNames walkFn path rest r.2
    | .dir entries =>
      let r := walk walkFn filename (.dir entries) st
      if r.1 ≠ .nil ∧ r.1 ≠ .SkipDir then r else walkNames walkFn path rest r.2
end

/-- `filepath.Walk(root, fn)` over the tree found at `root`. -/
def filepathWalk {σ : Type} (root : GoString) (node : FsNode) (walkFn : WalkFunc σ)
    (st : σ) : Option GoError × σ :=
  let r := walk walkFn root node st
  match r.1 with
  | .nil => (none, r.2)
  | .SkipDir => (none, r.2)
  | .err e => (some e, r.2)

/-! ## The path mapper (syncer.go) -/

/-- `DirectorySync.getRemotePath(localPath)`: the remote path, and the trace
with the line logged when `filepath.Rel` fails. -/
def DirectorySync.getRemotePath (config : Config) (localPath : GoString) (tr : Trace) :
    GoString × Trace :=
  match filepathRel config.LocalDirectory localPath with
  | .error e => ([], tr ++ [.Printf (.relFailed e)])
  | .ok relPath =>
    let remotePath := filepathJoin [config.RemoteDirectory, relPath]
    (replaceBackslash remotePath, tr)

/-! ## The orchestrator (syncer.go) -/

/-- `DirectorySync.ensureConnection()`. -/
def DirectorySync.ensureConnection (w : World) (tr : Trace) : Bool × Trace :=
  let connected := w.IsConnected (tr.countP Call.isIsConnected)
  let tr1 := tr ++ [.sftpIsConnected]
  if connected then (true, tr1)
  else
    let err := w.Reconnect (tr1.countP Call.isReconnect)
    let tr2 := tr1 ++ [.Printf .reconnecting, .sftpReconnect]
    match err with
    | some e => (false, tr2 ++ [.Printf (.reconnectFailed e)])
    | none => (true, tr2 ++ [.Printf .reconnected])

/-- The retry loop of `uploadFile`: `for i := 0; i < maxRetries; i++`, with
`n = maxRetries - i` iterations left and `err` the last error. -/
def DirectorySync.uploadLoop (w : World) (localPath remotePath : GoString) (maxRetries : Nat) :
    Nat → Nat → Option GoError → Trace → Option GoError × Trace
  | 0, _, err, tr => (err, tr)
  | n + 1, i, _, tr =>
    let c := DirectorySync.ensureConnection w tr
    if c.1 = false then (some .connectionFailed, c.2)
    else
      let err := w.UploadFile (c.2.countP Call.isSftpUpload)
      let tr1 := c.2 ++ [.sftpUploadFile localPath remotePath]
      match err with
      | none => (none, tr1)
      | some e =>
        DirectorySync.uploadLoop w localPath remotePath maxRetries n (i + 1) (some e)
          (tr1 ++ [.Printf (.uploadAttemptFailed (i + 1) maxRetries e), .Sleep (i + 1)])

/-- `DirectorySync.uploadFile(localPath, remotePath)`. -/
def DirectorySync.uploadFile (w : World) (localPath remotePath : GoString) (tr : Trace) :
    Option GoError × Trace :=
  let maxRetries := 3
  DirectorySync.uploadLoop w localPath remotePath maxRetries maxRetries 0 none
    (tr ++ [.uploadFile localPath remotePath])

/-- `DirectorySync.handleFileDelete(remotePath)`. -/
def DirectorySync.handleFileDelete (config : Config) (w : World) (remotePath : GoString)
    (tr : Trace) : Trace :=
  if config.DeleteRemote then
    let err := w.RemoveFile (tr.countP Call.isSftpRemove)
    let tr1 := tr ++ [.sftpRemoveFile remotePath]
    match err with
    | some e => tr1 ++ [.Printf (.remoteDeleteFailed remotePath e)]
    | none => tr1 ++ [.Printf (.remoteDeleted remotePath)]
  else tr

/-- `DirectorySync.handleFileChange(localPath)`. -/
def DirectorySync.handleFileChange (config : Config) (w : World) (localPath : GoString)
    (tr : Trace) : Trace :=
  if DirectorySync.shouldIgnoreFile config localPath then tr
  else
    let c := DirectorySync.ensureConnection w tr
    if c.1 = false then c.2
    else
      let rp := DirectorySync.getRemotePath config localPath c.2
      match w.Stat localPath with
      | .err e =>
        if e = .notExist then DirectorySync.handleFileDelete config w rp.1 rp.2
        else rp.2 ++ [.Printf (.statFailed localPath e)]
      | .info true => rp.2
      | .info false =>
        let u := DirectorySync.uploadFile w localPath rp.1 rp.2
        match u.1 with
        | some e => u.2 ++ [.Printf (.uploadFailed localPath e)]
        | none => u.2 ++ [.Printf (.synced localPath rp.1)]

/-- The `filepath.WalkFunc` closure of `performInitialSync`. -/
def DirectorySync.initialSyncFn (config : Config) (w : World) : WalkFunc Trace :=
  fun localPath info err tr =>
    match err with
    | some e => (.nil, tr ++ [.Printf (.accessFailed localPath e)])
    | none =>
      if DirectorySync.shouldIgnoreFile config localPath then
        if info = some true then (.SkipDir, tr) else (.nil, tr)
      else if info ≠ some true then
        let rp := DirectorySync.getRemotePath config localPath tr
        let u := DirectorySync.uploadFile w localPath rp.1 rp.2
        match u.1 with
        | some e => (.nil, u.2 ++ [.Printf (.initialSyncFileFailed localPath e)])
        | none => (.nil, u.2)
      else (.nil, tr)

/-- `DirectorySync.performInitialSync()`. -/
def DirectorySync.performInitialSync (config : Config) (w : World) (tr : Trace) :
    Option GoError × Trace :=
  filepathWalk config.LocalDirectory (w.fs config.LocalDirectory)
    (DirectorySync.initialSyncFn config w) (tr ++ [.Printf .initialSyncStart])

/-! ## The watcher (watcher.go) -/

/-- A pending `time.AfterFunc` timer of the debouncer: its identity, the path
its closure captured and the instant (in nanoseconds) it is due. -/
structure Timer where
  id : Nat
  filePath : GoString
  deadline : Nat
  deriving DecidableEq, Repr

/-- The state of a `FileWatcher`, of the `debounceMap` of its `processEvents`
loop and of the runtime timers that loop has started. -/
structure FileWatcher where
  /-- directories added to the fsnotify watcher -/
  watches : List GoString
  /-- `fw.watcher.Close()` has been called -/
  watcherClosed : Bool
  /-- the buffered contents of `changeQueue`, head first -/
  changeQueue : List GoString
  /-- `close(fw.changeQueue)` has been called -/
  queueClosed : Bool
  /-- `debounceMap`: path to the timer stored for it -/
  debounceMap : List (GoString × Nat)
  /-- the timers started and neither fired nor stopped -/
  timers : List Timer
  /-- the timers that have fired and whose function, started by the runtime in
  a goroutine of its own, has not run yet (most recent first) -/
  fired : List Timer
  /-- the identity the next timer gets -/
  nextTimer : Nat
  /-- the number of `processEvents` goroutines started -/
  eventLoops : Nat
  /-- a goroutine has panicked (send on, or close of, a closed channel) -/
  panicked : Bool
  deriving DecidableEq, Repr

/-- The capacity of `changeQueue`: `make(chan string, 1000)`. -/
def changeQueueCap : Nat := 1000

/-- `NewFileWatcher(config, logger)`: the state after construction. -/
def NewFileWatcher : FileWatcher :=
  { watches := [], watcherClosed := false, changeQueue := [], queueClosed := false,
    debounceMap := [], timers := [], fired := [], nextTimer := 0, eventLoops := 0,
    panicked := false }

/-- Conversion to `int64` (two's complement wrap-around). -/
def wrapInt64 (x : Int) : Int := (x + 2 ^ 63) % 2 ^ 64 - 2 ^ 63

/-- The delay of the debounce timers in nanoseconds:
`time.Duration(fw.config.Sync.SyncInterval)*time.Second`; a non-positive
duration makes `time.AfterFunc` due at once. -/
def debounceInterval (config : Config) : Nat :=
  (wrapInt64 (wrapInt64 config.SyncInterval * 1000000000)).toNat

/-- `fw.watcher.Add(path)`: a closed fsnotify watcher rejects the path;
otherwise the outcome is the world's. -/
def FileWatcher.watcherAdd (w : World) (fw : FileWatcher) (path : GoString) :
    Option GoError :=
  if fw.watcherClosed then some .watcherClosed else w.watcherAdd path

/-- The `filepath.WalkFunc` closure of `addWatchRecursively`. -/
def FileWatcher.addWatchFn (config : Config) (w : World) : WalkFunc (FileWatcher × Trace) :=
  fun path info err st =>
    match err with
    | some e => (.nil, (st.1, st.2 ++ [.Printf (.watchAccessFailed path e)]))
    | none =>
      if info = some true ∧ FileWatcher.shouldIgnoreFile config path = false then
        match FileWatcher.watcherAdd w st.1 path with
        | some e => (.nil, (st.1, st.2 ++ [.Printf (.watchAddFailed path e)]))
        | none =>
          (.nil, ({ st.1 with watches := st.1.watches ++ [path] },
                  st.2 ++ [.Printf (.watchAdded path)]))
      else (.nil, st)

/-- `FileWatcher.addWatchRecursively(root)`. -/
def FileWatcher.addWatchRecursively (config : Config) (w : World) (root : GoString)
    (st : FileWatcher × Trace) : Option GoError × (FileWatcher × Trace) :=
  filepathWalk root (w.fs root) (FileWatcher.addWatchFn config w) st

/-- `FileWatcher.Start()`. -/
def FileWatcher.Start (config : Config) (w : World) (st : FileWatcher × Trace) :
    Option GoError × (FileWatcher × Trace) :=
  let r := FileWatcher.addWatchRecursively config w config.LocalDirectory st
  match r.1 with
  | some _ => (some .watcherStartFailed, r.2)
  | none =>
    (none, ({ r.2.1 with eventLoops := r.2.1.eventLoops + 1 },
            r.2.2 ++ [.Printf (.watcherStarted config.LocalDirectory)]))

/-- `FileWatcher.Stop()`: closes the fsnotify watcher and the change queue.
Closing a closed channel panics. -/
def FileWatcher.Stop (fw : FileWatcher) : FileWatcher :=
  let fw1 := { fw with watcherClosed := true }
  if fw1.queueClosed then { fw1 with panicked := true }
  else { fw1 with queueClosed := true }

/-- `debounceMap[filePath]`. -/
def mapLookup (m : List (GoString × Nat)) (filePath : GoString) : Option Nat :=
  (m.find? fun e => e.1 = filePath).map (·.2)

/-- `delete(debounceMap, filePath)`. -/
def mapDelete (m : List (GoString × Nat)) (filePath : GoString) : List (GoString × Nat) :=
  m.filter fun e => e.1 ≠ filePath

/-- `debounceMap[filePath] = timer`. -/
def mapStore (m : List (GoString × Nat)) (filePath : GoString) (id : Nat) :
    List (GoString × Nat) :=
  mapDelete m filePath ++ [(filePath, id)]

/-- `timer.Stop()`: the timer is no longer pending. On a timer that has fired
already `Stop` returns false and does nothing, and `debounceChange` does not
look at what it returns. -/
def stopTimer (timers : List Timer) (id : Nat) : List Timer :=
  timers.filter fun t => t.id ≠ id

/-- `FileWatcher.debounceChange(debounceMap, filePath)`, called at instant
`now`: stops the timer stored for the path, if any, and stores a new one. -/
def FileWatcher.debounceChange (config : Config) (fw : FileWatcher) (now : Nat)
    (filePath : GoString) : FileWatcher :=
  let timers :=
    match mapLookup fw.debounceMap filePath with
    | some id => stopTimer fw.timers id
    | none => fw.timers
  let timer : Timer :=
    { id := fw.nextTimer, filePath := filePath, deadline := now + debounceInterval config }
  { fw with
    timers := timers ++ [timer]
    debounceMap := mapStore fw.debounceMap filePath timer.id
    nextTimer := fw.nextTimer + 1 }

/-- The closure `debounceChange` hands to `time.AfterFunc`, run when the timer
of `filePath` expires: a non-blocking send on the change queue, then the
removal of the map entry. A send on a closed channel panics. -/
def FileWatcher.timerFunc (st : FileWatcher × Trace) (filePath : GoString) :
    FileWatcher × Trace :=
  if st.1.queueClosed then ({ st.1 with panicked := true }, st.2)
  else
    let sent : FileWatcher × Trace :=
      if st.1.changeQueue.length < changeQueueCap then
        ({ st.1 with changeQueue := st.1.changeQueue ++ [filePath] }, st.2)
      else (st.1, st.2 ++ [.Printf (.queueFull filePath)])
    ({ sent.1 with debounceMap := mapDelete sent.1.debounceMap filePath }, sent.2)

/-- The pending timer `id` fires: the runtime takes it off the pending timers
and starts its function in a goroutine of its own, which has not run yet;
`none` when no such timer is pending. -/
def FileWatcher.timerFires (fw : FileWatcher) (id : Nat) : Option FileWatcher :=
  match fw.timers.find? fun t => t.id = id with
  | none => none
  | some t => some { fw with timers := stopTimer fw.timers id, fired := t :: fw.fired }

/-- The function of the fired timer `id` runs (the goroutine the runtime
started for it gets scheduled); `none` when no function of that timer is
waiting to run. -/
def FileWatcher.closureRuns (st : FileWatcher × Trace) (id : Nat) :
    Option (FileWatcher × Trace) :=
  match st.1.fired.find? fun t => t.id = id with
  | none => none
  | some t =>
    some (FileWatcher.timerFunc
      ({ st.1 with fired := st.1.fired.eraseP fun t => t.id = id }, st.2) t.filePath)

/-- The pending timer `id` fires and its function runs at once, with nothing
else in between: `timerFires` followed by `closureRuns`; `none` when no such
timer is pending. -/
def FileWatcher.fireTimer (st : FileWatcher × Trace) (id : Nat) :
    Option (FileWatcher × Trace) :=
  match FileWatcher.timerFires st.1 id with
  | none => none
  | some fw => FileWatcher.closureRuns (fw, st.2) id

/-- A receive of the consumer (`processChanges`) from the change queue: the
head of the buffer, if any. -/
def FileWatcher.take (fw : FileWatcher) : Option GoString × FileWatcher :=
  match fw.changeQueue with
  | [] => (none, fw)
  | filePath :: rest => (some filePath, { fw with changeQueue := rest })

/-- The bits of `fsnotify.Op`. -/
def opCreate : Nat := 1
/-- The bit `fsnotify.Write`. -/
def opWrite : Nat := 2
/-- The bit `fsnotify.Remove`. -/
def opRemove : Nat := 4
/-- The bit `fsnotify.Rename`. -/
def opRename : Nat := 8
/-- The bit `fsnotify.Chmod`. -/
def opChmod : Nat := 16

/-- An `fsnotify.Event`. -/
structure Event where
  Name : GoString
  Op : Nat
  deriving DecidableEq, Repr

/-- The body of the `processEvents` loop for an event received at instant
`now`. -/
def FileWatcher.handleEvent (config : Config) (w : World) (now : Nat) (event : Event)
    (st : FileWatcher × Trace) : FileWatcher × Trace :=
  if FileWatcher.shouldIgnoreFile config event.Name then st
  else
    let st1 :=
      if event.Op &&& opCreate = opCreate ∧ (w.fs event.Name).IsDir = true then
        (FileWatcher.addWatchRecursively config w event.Name st).2
      else st
    if event.Op &&& (opWrite ||| opCreate ||| opRemove ||| opRename) ≠ 0 then
      (FileWatcher.debounceChange config st1.1 now event.Name, st1.2)
    else st1

/-! ## The orchestrator's life cycle (syncer.go) -/

/-- The state of a `DirectorySync`: the `running` flag, its watcher, and the
calls it has made to the session, the logger and the runtime. -/
structure DirectorySync where
  running : Bool
  watcher : FileWatcher
  trace : Trace
  deriving DecidableEq, Repr

/-- `NewDirectorySync(config, logger)`: the state after construction. -/
def NewDirectorySync : DirectorySync :=
  { running := false, watcher := NewFileWatcher, trace := [] }

/-- `DirectorySync.Start()`. -/
def DirectorySync.Start (config : Config) (w : World) (ds : DirectorySync) :
    Option GoError × DirectorySync :=
  if ds.running then (some .alreadyRunning, ds)
  else
    let r := FileWatcher.Start config w (ds.watcher, ds.trace)
    match r.1 with
    | some _ => (some .watcherStartFailed, { ds with watcher := r.2.1, trace := r.2.2 })
    | none =>
      let tr1 := r.2.2 ++ [.Printf .serviceStarted,
        .Printf (.localDirectory config.LocalDirectory),
        .Printf (.remoteDirectory config.RemoteDirectory)]
      let s := DirectorySync.performInitialSync config w tr1
      let tr2 :=
        match s.1 with
        | some e => s.2 ++ [.Printf (.initialSyncFailed e)]
        | none => s.2
      (none, { running := true, watcher := r.2.1,
               trace := tr2 ++ [.goProcessChanges, .goKeepAlive] })

/-- `DirectorySync.Stop()`. When `ds.watcher.Stop()` panics, the calls after
it are not reached. -/
def DirectorySync.Stop (ds : DirectorySync) : DirectorySync :=
  if ds.running = false then ds
  else
    let fw := FileWatcher.Stop ds.watcher
    if fw.panicked then { running := false, watcher := fw, trace := ds.trace }
    else
      { running := false, watcher := fw,
        trace := ds.trace ++ [.sftpClose, .Printf .serviceStopped] }

/-- A configuration with the given roots and ignore patterns, as `LoadConfig`
returns it (`sync_interval` 2, `delete_remote` off). -/
def configOf (localDir remoteDir : String) (patterns : List String) : Config :=
  { LocalDirectory := go localDir, RemoteDirectory := go remoteDir,
    IgnorePatterns := patterns.map go, DeleteRemote := false, SyncInterval := 2 }

/-! ## Specification-side definitions -/

/-- The attempts of `uploadFile` under a live session, spelled out by the
outcomes of the next three `UploadFile` calls of the session. -/
def uploadFileLive (w : World) (l r : GoString) (tr : Trace) : Option GoError × Trace :=
  let base := tr.countP Call.isSftpUpload
  let t0 := tr ++ [.uploadFile l r, .sftpIsConnected, .sftpUploadFile l r]
  match w.UploadFile base with
  | none => (none, t0)
  | some e0 =>
    let t1 := t0 ++ [.Printf (.uploadAttemptFailed 1 3 e0), .Sleep 1, .sftpIsConnected,
      .sftpUploadFile l r]
    match w.UploadFile (base + 1) with
    | none => (none, t1)
    | some e1 =>
      let t2 := t1 ++ [.Printf (.uploadAttemptFailed 2 3 e1), .Sleep 2, .sftpIsConnected,
        .sftpUploadFile l r]
      match w.UploadFile (base + 2) with
      | none => (none, t2)
      | some e2 => (some e2, t2 ++ [.Printf (.uploadAttemptFailed 3 3 e2), .Sleep 3])

/-- The number of failed attempts among the first `n` outcomes from `base`. -/
def failedAttempts (w : World) (base n : Nat) : Nat :=
  ((List.range n).filter fun j => (w.UploadFile (base + j)).isSome).length

/-- A world with a live session whose `UploadFile` fails on the calls listed
in `failing` (with error code 1) and succeeds otherwise; every file exists. -/
def liveWorld (failing : List Nat) : World :=
  { IsConnected := fun _ => true
    Reconnect := fun _ => none
    UploadFile := fun n => if n ∈ failing then some (.other 1) else none
    RemoveFile := fun _ => none
    Stat := fun _ => .info false
    fs := fun _ => .file
    watcherAdd := fun _ => none }

/-- The remote path `getRemotePath` maps a local path to. -/
def remotePathOf (config : Config) (localPath : GoString) : GoString :=
  (DirectorySync.getRemotePath config localPath []).1

/-- A world with a live session in which no local file exists any more. -/
def goneWorld : World :=
  { IsConnected := fun _ => true
    Reconnect := fun _ => none
    UploadFile := fun _ => none
    RemoveFile := fun _ => none
    Stat := fun _ => .err .notExist
    fs := fun _ => .lstatError .notExist
    watcherAdd := fun _ => none }

/-- The configuration `/home/u/proj` to `/srv/proj` with `delete_remote` on. -/
def deletingConfig : Config :=
  { configOf "/home/u/proj" "/srv/proj" ["*.tmp"] with DeleteRemote := true }

/-- A call of the host process on the orchestrator. -/
inductive LifecycleCall where
  | Start
  | Stop
  deriving DecidableEq, Repr

/-- The orchestrator after one call of the host process. A panic ends the
process: no call is made after it. -/
def lifecycleStep (config : Config) (w : World) (ds : DirectorySync) :
    LifecycleCall → DirectorySync
  | .Start => if ds.watcher.panicked then ds else (DirectorySync.Start config w ds).2
  | .Stop => if ds.watcher.panicked then ds else DirectorySync.Stop ds

/-- The orchestrator after a sequence of calls of the host process. -/
def lifecycleRun (config : Config) (w : World) (calls : List LifecycleCall)
    (ds : DirectorySync) : DirectorySync :=
  calls.foldl (lifecycleStep config w) ds

/-- The world of a local root holding the single file `a.go`, with a live
session. -/
def oneFileWorld : World :=
  { IsConnected := fun _ => true
    Reconnect := fun _ => none
    UploadFile := fun _ => none
    RemoveFile := fun _ => none
    Stat := fun _ => .info false
    fs := fun _ => .dir [(go "a.go", .file)]
    watcherAdd := fun _ => none }

/-- What can happen to a watcher: a raw event received at an instant; a timer
firing at an instant (`fires`) and, at any later point, its function running
(`runs`); the two back to back (`expire`); a receive of the consumer; and
`Stop`. The event loop and the timer functions are goroutines of their own, so
these steps interleave in any order. -/
inductive WatcherOp where
  | event (now : Nat) (e : Event)
  | expire (now : Nat) (id : Nat)
  | fires (now : Nat) (id : Nat)
  | runs (id : Nat)
  | take
  | stop
  deriving DecidableEq, Repr

/-- The watcher after one operation. A panic ends the process: nothing runs
after it. A timer that is not pending does not fire, and no function runs
that no fired timer has started. -/
def watcherStep (config : Config) (w : World) (st : FileWatcher × Trace) :
    WatcherOp → FileWatcher × Trace
  | .event now e => if st.1.panicked then st else FileWatcher.handleEvent config w now e st
  | .expire _ id => if st.1.panicked then st else (FileWatcher.fireTimer st id).getD st
  | .fires _ id =>
    if st.1.panicked then st else (((FileWatcher.timerFires st.1 id).map (·, st.2)).getD st)
  | .runs id => if st.1.panicked then st else (FileWatcher.closureRuns st id).getD st
  | .take => if st.1.panicked then st else ((FileWatcher.take st.1).2, st.2)
  | .stop => if st.1.panicked then st else (FileWatcher.Stop st.1, st.2)

/-- The watcher after a sequence of operations. -/
def watcherRun (config : Config) (w : World) (ops : List WatcherOp)
    (st : FileWatcher × Trace) : FileWatcher × Trace :=
  ops.foldl (watcherStep config w) st

/-- The fields of a watcher other than its watch list. -/
def FileWatcher.core (fw : FileWatcher) :
    Bool × List GoString × Bool × List (GoString × Nat) × List Timer × Nat × Nat × Bool
      × List Timer :=
  (fw.watcherClosed, fw.changeQueue, fw.queueClosed, fw.debounceMap, fw.timers, fw.nextTimer,
    fw.eventLoops, fw.panicked, fw.fired)

/-- A watcher whose change queue is full, with one timer pending. -/
def fullWatcher : FileWatcher :=
  { NewFileWatcher with
    changeQueue := List.replicate 1000 (go "/w/a.go")
    debounceMap := [(go "/w/late.go", 0)]
    timers := [⟨0, go "/w/late.go", 5⟩]
    nextTimer := 1 }

mutual
/-- The non-directory entries of the tree at `path`, each with the
directories on the way from the root of the walk down to it (`dirs` are the
directories above `path`). -/
def fileEntries (dirs : List GoString) (path : GoString) :
    FsNode → List (GoString × List GoString)
  | .file => [(path, dirs)]
  | .dir entries => fileEntriesNames (path :: dirs) path entries
  | .unreadableDir _ => []
  | .lstatError _ => []
/-- The non-directory entries below the directory `path`. -/
def fileEntriesNames (dirs : List GoString) (path : GoString) :
    List (GoString × FsNode) → List (GoString × List GoString)
  | [] => []
  | (name, child) :: rest =>
    fileEntries dirs (filepathJoin [path, name]) child ++ fileEntriesNames dirs path rest
end

/-- An entry is walked and synchronised when neither it nor a directory on
the way to it is ignored. -/
def eligible (config : Config) (e : GoString × List GoString) : Bool :=
  !DirectorySync.shouldIgnoreFile config e.1
    && e.2.all fun d => !DirectorySync.shouldIgnoreFile config d

/-- The uploads the initial sync owes: the eligible entries, each with the
remote path it is mapped to. -/
def initialUploads (config : Config) (w : World) : List (GoString × GoString) :=
  ((fileEntries [] config.LocalDirectory (w.fs config.LocalDirectory)).filter
      (eligible config)).map fun e => (e.1, remotePathOf config e.1)

/-- The world of a local root holding `a.go` and the directory `build` with
the file `x.go`, with a live session. -/
def buildWorld : World :=
  { IsConnected := fun _ => true
    Reconnect := fun _ => none
    UploadFile := fun _ => none
    RemoveFile := fun _ => none
    Stat := fun _ => .info false
    fs := fun _ => .dir [(go "a.go", .file), (go "build", .dir [(go "x.go", .file)])]
    watcherAdd := fun _ => none }

/-- A path element: non-empty and free of separators. -/
def isElem (s : GoString) : Prop := s ≠ [] ∧ Separator ∉ s

/-- A name: a path element other than `.` and `..`. -/
def isName (s : GoString) : Prop := isElem s ∧ s ≠ [dot] ∧ s ≠ [dot, dot]

/-- The elements joined with separators: `a/b/c`. -/
def joinSegs : List GoString → GoString
  | [] => []
  | [s] => s
  | s :: t :: rest => s ++ Separator :: joinSegs (t :: rest)

/-- The rooted path of the elements: `/a/b/c`. -/
def absPath (segs : List GoString) : GoString := Separator :: joinSegs segs

/-- The slash `Clean` writes before a real path element. -/
def addSep (rooted : Bool) (out : GoString) : GoString :=
  if (rooted = true ∧ out.length ≠ 1) ∨ (rooted = false ∧ out.length ≠ 0)
  then out ++ [Separator] else out

/-- The output buffer of `Clean` after the real path elements `segs` have been
written behind `out`. -/
def appendSegs (rooted : Bool) : GoString → List GoString → GoString
  | out, [] => out
  | out, s :: rest => appendSegs rooted (addSep rooted out ++ s) rest

/-- The local path `P` lies under the local root `L`, the names `segs` leading
from the root down to it: lexically, the clean form of `P` is the clean form
of `L` followed by these names. The root may be rooted (`/a/b`), relative
(`a/b`, `../a`) or the current directory (`.`). -/
def liesUnder (L P : GoString) (segs : List GoString) : Prop :=
  segs ≠ [] ∧ (∀ s ∈ segs, isName s) ∧
    ∃ ls : List GoString, (∀ l ∈ ls, isElem l) ∧
      ((filepathClean L = absPath ls ∧ filepathClean P = absPath (ls ++ segs))
        ∨ (ls ≠ [] ∧ filepathClean L = joinSegs ls ∧ filepathClean L ≠ [dot]
            ∧ filepathClean P = joinSegs (ls ++ segs))
        ∨ (filepathClean L = [dot] ∧ filepathClean P = joinSegs segs))

/-- The file name `a\b.go`: one path element where the separator is the
slash. -/
def backslashName : GoString := go "a" ++ [backslash] ++ go "b.go"

/-- The path of the file named `a\b.go` in the directory `/home/u/proj`. -/
def backslashPath : GoString := go "/home/u/proj/" ++ backslashName

instance (s : GoString) : Decidable (isElem s) := by
  unfold isElem; infer_instance

instance (s : GoString) : Decidable (isName s) := by
  unfold isName; infer_instance


/-- The raw events of a schedule, each with the instant it is received. -/
def eventsOf : List WatcherOp → List (Nat × Event)
  | [] => []
  | .event now e :: rest => (now, e) :: eventsOf rest
  | _ :: rest => eventsOf rest

/-- The instant of the last event on `filePath` in a history of events, most
recent first. -/
def lastTime (hist : List (Nat × GoString)) (filePath : GoString) : Option Nat :=
  (hist.find? fun h => h.2 = filePath).map (·.1)

/-- Every event comes less than `interval` after the previous event on the
same path (`hist` holds the events before, most recent first). -/
def closelySpaced (interval : Nat) : List (Nat × GoString) → List (Nat × Event) → Bool
  | _, [] => true
  | hist, (t, e) :: rest =>
    (match lastTime hist e.Name with
      | some t0 => decide (t < t0 + interval)
      | none => true)
    && closelySpaced interval ((t, e.Name) :: hist) rest

/-- A schedule of raw events, timers firing and timer functions running is
possible from instant `now` and state `st`: instants do not decrease, and a
timer fires only while it is pending, and not before it is due. The function
of a fired timer runs at any point after. -/
def validSchedule (config : Config) (w : World) :
    Nat → FileWatcher × Trace → List WatcherOp → Bool
  | _, _, [] => true
  | now, st, .event t e :: rest =>
    decide (now ≤ t) && validSchedule config w t (watcherStep config w st (.event t e)) rest
  | now, st, .expire t id :: rest =>
    decide (now ≤ t)
      && st.1.timers.any (fun timer => decide (timer.id = id) && decide (timer.deadline ≤ t))
      && validSchedule config w t (watcherStep config w st (.expire t id)) rest
  | now, st, .fires t id :: rest =>
    decide (now ≤ t)
      && st.1.timers.any (fun timer => decide (timer.id = id) && decide (timer.deadline ≤ t))
      && validSchedule config w t (watcherStep config w st (.fires t id)) rest
  | now, st, .runs id :: rest =>
    validSchedule config w now (watcherStep config w st (.runs id)) rest
  | _, _, .take :: _ => false
  | _, _, .stop :: _ => false

/-- The kinds of raw event the debouncer reacts to: Write, Create, Remove,
Rename. -/
def debouncedOps : Nat := opWrite ||| opCreate ||| opRemove ||| opRename

/-- The timers whose function has not run yet: the fired ones and the pending
ones. -/
def FileWatcher.live (fw : FileWatcher) : List Timer := fw.fired ++ fw.timers

/-- The invariant of the debouncer at instant `now`, `hist` the raw events so
far (most recent first) and `allPaths` the paths of the whole schedule: the
queue is open; timer identities are fresh and distinct; there is at most one
timer per path that is pending or fired with its function still to run, and
the debounce map holds exactly these timers; each of them is due one interval
after the last event on its path, and the fired ones are due by now; the
queued paths are distinct, have no such timer, and their last event is at
least one interval old; every path seen is queued or has such a timer. -/
structure DebounceInv (interval : Nat) (allPaths : List GoString)
    (hist : List (Nat × GoString)) (now : Nat) (fw : FileWatcher) : Prop where
  isOpen : fw.queueClosed = false
  alive : fw.panicked = false
  fresh : ∀ t ∈ fw.live, t.id < fw.nextTimer
  ids : (fw.live.map (·.id)).Nodup
  paths : (fw.live.map (·.filePath)).Nodup
  keys : (fw.debounceMap.map (·.1)).Nodup
  mapTimers : ∀ p id, (p, id) ∈ fw.debounceMap ↔ ∃ t ∈ fw.live, t.filePath = p ∧ t.id = id
  due : ∀ t ∈ fw.live, ∃ t0, lastTime hist t.filePath = some t0 ∧ t.deadline = t0 + interval
  elapsed : ∀ t ∈ fw.fired, t.deadline ≤ now
  queueNodup : fw.changeQueue.Nodup
  settled : ∀ p ∈ fw.changeQueue,
    (∀ t ∈ fw.live, t.filePath ≠ p) ∧ ∃ t0, lastTime hist p = some t0 ∧ t0 + interval ≤ now
  seen : ∀ p, p ∈ hist.map (·.2) ↔ (p ∈ fw.changeQueue ∨ ∃ t ∈ fw.live, t.filePath = p)
  within : ∀ p ∈ hist.map (·.2), p ∈ allPaths

/-- The paths of the raw events of a schedule, in order of arrival. -/
def eventPaths (ops : List WatcherOp) : List GoString :=
  (eventsOf ops).map fun te => te.2.Name

/-- A schedule with two writes of `/w/a.go` one second apart and the creation
of `/w/b.go` half a second later; the timer of the second write fires, the
timer of `/w/b.go` fires and its function runs at once, and the function of
the timer of `/w/a.go` runs last (the timer of the first write was stopped
by the second). -/
def burstOps : List WatcherOp :=
  [.event 0 ⟨go "/w/a.go", opWrite⟩,
   .event 1000000000 ⟨go "/w/a.go", opWrite⟩,
   .event 1500000000 ⟨go "/w/b.go", opCreate⟩,
   .fires 3000000000 1,
   .expire 3500000000 2,
   .runs 1]

/-- A schedule in which a write of `/w/a.go` is handled between the firing of
the timer of an earlier write and the run of that timer's function, followed
by a third write one second later. -/
def raceOps : List WatcherOp :=
  [.event 0 ⟨go "/w/a.go", opWrite⟩,
   .fires 2000000000 0,
   .event 2000000000 ⟨go "/w/a.go", opWrite⟩,
   .runs 0,
   .event 3000000000 ⟨go "/w/a.go", opWrite⟩]

/-! # Properties -/

/-! ## The ignore filter -/

theorem hasPrefix_iff (s p : GoString) : hasPrefix s p = true ↔ p <+: s := by
  induction p generalizing s with
  | nil => simp [hasPrefix]
  | cons a p ih =>
    cases s with
    | nil => simp [hasPrefix]
    | cons c s =>
      simp only [hasPrefix, Bool.and_eq_true, beq_iff_eq, ih, List.cons_prefix_cons]
      constructor
      · rintro ⟨h1, h2⟩; exact ⟨h1.symm, h2⟩
      · rintro ⟨h1, h2⟩; exact ⟨h1.symm, h2⟩

/-- `strings.Contains` decides the substring relation. -/
theorem stringsContains_iff (s p : GoString) : stringsContains s p = true ↔ p <:+: s := by
  induction s with
  | nil =>
    simp only [stringsContains, hasPrefix_iff]
    constructor
    · intro h; exact h.isInfix
    · intro h; have := List.eq_nil_of_infix_nil h; subst this; exact List.prefix_refl _
  | cons c s ih =>
    simp only [stringsContains, Bool.or_eq_true, hasPrefix_iff, ih]
    rw [List.infix_cons_iff]

theorem shouldIgnoreLoop_iff (filePath fileName : GoString) (patterns : List GoString) :
    shouldIgnoreLoop filePath fileName patterns = true ↔
      ∃ p ∈ patterns, filepathMatch p fileName = .ok true ∨ p <:+: filePath := by
  induction patterns with
  | nil => simp [shouldIgnoreLoop]
  | cons p rest ih =>
    simp only [shouldIgnoreLoop, List.mem_cons, exists_eq_or_imp]
    split
    · next h => simp [h]
    · next h =>
      by_cases hc : stringsContains filePath p = true
      · simp [hc, (stringsContains_iff _ _).1 hc]
      · have hn : ¬ p <:+: filePath := fun hi => hc ((stringsContains_iff _ _).2 hi)
        have hm : filepathMatch p fileName ≠ .ok true := fun he => h he
        simp [hc, hn, hm, ih]

theorem watcher_shouldIgnoreLoop_eq (filePath fileName : GoString) (patterns : List GoString) :
    FileWatcher.shouldIgnoreLoop filePath fileName patterns
      = shouldIgnoreLoop filePath fileName patterns := by
  induction patterns with
  | nil => rfl
  | cons p rest ih => simp only [FileWatcher.shouldIgnoreLoop, shouldIgnoreLoop, ih]

theorem watcher_shouldIgnoreFile_eq (config : Config) (filePath : GoString) :
    FileWatcher.shouldIgnoreFile config filePath
      = DirectorySync.shouldIgnoreFile config filePath := by
  simp only [FileWatcher.shouldIgnoreFile, DirectorySync.shouldIgnoreFile,
    watcher_shouldIgnoreLoop_eq]

/-- `filepath.Base` of a path ending in a non-empty, separator-free name is
that name. -/
theorem filepathBase_last_segment (dir name : GoString) (hne : name ≠ [])
    (hsep : Separator ∉ name) :
    filepathBase (dir ++ [Separator] ++ name) = name := by
  have hlast : ∀ c ∈ name.reverse, (c == Separator) = false := by
    intro c hc
    have : c ∈ name := List.mem_reverse.1 hc
    simp only [beq_eq_false_iff_ne, ne_eq]
    rintro rfl; exact hsep this
  have hrev : name.reverse ≠ [] := by simpa using hne
  obtain ⟨a, t, hat⟩ := List.exists_cons_of_ne_nil hrev
  have ha : (a == Separator) = false := hlast a (by rw [hat]; exact List.mem_cons_self _ _)
  have h1 : ((dir ++ [Separator] ++ name).reverse.dropWhile (· == Separator))
      = (dir ++ [Separator] ++ name).reverse := by
    simp only [List.reverse_append, hat, List.cons_append, List.dropWhile_cons, ha]
    simp
  have h2 : ((dir ++ [Separator] ++ name).reverse.takeWhile (· != Separator))
      = name.reverse := by
    have hall : ∀ c ∈ name.reverse, (c != Separator) = true := by
      intro c hc; have := hlast c hc; simp [bne, this]
    simp only [List.reverse_append, List.reverse_cons, List.reverse_nil, List.nil_append,
      List.append_assoc, List.singleton_append]
    rw [List.takeWhile_append_of_pos hall]
    simp [List.takeWhile_cons]
  unfold filepathBase
  have hnil : dir ++ [Separator] ++ name ≠ [] := by simp
  simp only [hnil, if_false, h1, List.reverse_reverse, h2]
  simp [hne]

/-- C1. `shouldIgnoreFile(path)` is true exactly when some configured pattern
glob-matches the final segment of the path (`filepath.Match` returning
`(true, nil)`, so that a malformed pattern is no match) or occurs as a
substring of the full path; the final segment of `dir/name` is `name`; the
watcher's and the orchestrator's filters agree on every input; `*.tmp`
ignores `/a/b/file.tmp` and not `/a/b/file.txt`, `node_modules` ignores
`/a/node_modules/x.js` through the substring test alone (its final segment
`x.js` is no glob match), and the malformed pattern `[` is an error of
`filepath.Match` and ignores nothing it is not a substring of. -/
theorem shouldIgnoreFile_spec :
    (∀ (config : Config) (filePath : GoString),
      DirectorySync.shouldIgnoreFile config filePath = true ↔
        ∃ pattern ∈ config.IgnorePatterns,
          filepathMatch pattern (filepathBase filePath) = .ok true
            ∨ pattern <:+: filePath)
    ∧ (∀ dir name : GoString, name ≠ [] → Separator ∉ name →
        filepathBase (dir ++ [Separator] ++ name) = name)
    ∧ (∀ (config : Config) (filePath : GoString),
        FileWatcher.shouldIgnoreFile config filePath
          = DirectorySync.shouldIgnoreFile config filePath)
    ∧ DirectorySync.shouldIgnoreFile (configOf "/a" "/srv" ["*.tmp"]) (go "/a/b/file.tmp") = true
    ∧ DirectorySync.shouldIgnoreFile (configOf "/a" "/srv" ["*.tmp"]) (go "/a/b/file.txt") = false
    ∧ DirectorySync.shouldIgnoreFile (configOf "/a" "/srv" ["node_modules"])
        (go "/a/node_modules/x.js") = true
    ∧ filepathMatch (go "node_modules") (filepathBase (go "/a/node_modules/x.js")) = .ok false
    ∧ filepathMatch (go "[") (go "file.txt") = .error .ErrBadPattern
    ∧ DirectorySync.shouldIgnoreFile (configOf "/a" "/srv" ["["]) (go "/a/b/file.txt") = false := by
  refine ⟨?_, filepathBase_last_segment, watcher_shouldIgnoreFile_eq, ?_, ?_, ?_, ?_, ?_, ?_⟩
  · intro config filePath
    exact shouldIgnoreLoop_iff _ _ _
  · decide
  · decide
  · decide
  · rfl
  · rfl
  · decide

/-! ## Upload with retry -/

theorem ensureConnection_live (w : World) (tr : Trace) (hlive : ∀ n, w.IsConnected n = true) :
    DirectorySync.ensureConnection w tr = (true, tr ++ [.sftpIsConnected]) := by
  simp [DirectorySync.ensureConnection, hlive]

theorem uploadFile_eq_live (w : World) (l r : GoString) (tr : Trace)
    (hlive : ∀ n, w.IsConnected n = true) :
    DirectorySync.uploadFile w l r tr = uploadFileLive w l r tr := by
  unfold DirectorySync.uploadFile uploadFileLive
  simp only [DirectorySync.uploadLoop, ensureConnection_live _ _ hlive]
  simp only [List.countP_append, List.countP_cons, List.countP_nil, Call.isSftpUpload,
    Call.isIsConnected]
  simp only [Bool.false_eq_true, if_false, if_true, Nat.add_zero, Nat.zero_add,
    List.append_assoc, List.cons_append, List.nil_append, List.singleton_append]
  cases h0 : w.UploadFile (List.countP Call.isSftpUpload tr) with
  | none => simp
  | some e0 =>
    simp only []
    cases h1 : w.UploadFile (List.countP Call.isSftpUpload tr + 1) with
    | none => simp
    | some e1 =>
      simp only []
      cases h2 : w.UploadFile (List.countP Call.isSftpUpload tr + 1 + 1) with
      | none => simp [h2]
      | some e2 => simp [h2]

/-- C6. With the session live at every attempt, whatever the outcomes of the
session's `UploadFile`: `uploadFile` calls it `min k 3` times when the `k`-th
attempt is the first to succeed and 3 times when none of the first three
succeeds, never more than 3 times; it returns `nil` exactly when one of the
first three attempts succeeds and otherwise the error of the third attempt;
it writes one failure line per failed attempt; every call carries the given
local and remote path. -/
theorem uploadFile_retry (w : World) (localPath remotePath : GoString) (tr : Trace)
    (hlive : ∀ n, w.IsConnected n = true) :
    ∃ new : Trace,
      (DirectorySync.uploadFile w localPath remotePath tr).2 = tr ++ new
      ∧ (∀ k, 1 ≤ k →
          (∀ j, j + 1 < k → w.UploadFile (tr.countP Call.isSftpUpload + j) ≠ none) →
          w.UploadFile (tr.countP Call.isSftpUpload + (k - 1)) = none →
          new.countP Call.isSftpUpload = min k 3)
      ∧ ((∀ j, j < 3 → w.UploadFile (tr.countP Call.isSftpUpload + j) ≠ none) →
          new.countP Call.isSftpUpload = 3)
      ∧ new.countP Call.isSftpUpload ≤ 3
      ∧ ((DirectorySync.uploadFile w localPath remotePath tr).1 = none ↔
          ∃ j, j < 3 ∧ w.UploadFile (tr.countP Call.isSftpUpload + j) = none)
      ∧ ((∀ j, j < 3 → w.UploadFile (tr.countP Call.isSftpUpload + j) ≠ none) →
          (DirectorySync.uploadFile w localPath remotePath tr).1
            = w.UploadFile (tr.countP Call.isSftpUpload + 2))
      ∧ new.countP Call.isAttemptFailedLog
          = failedAttempts w (tr.countP Call.isSftpUpload) (new.countP Call.isSftpUpload)
      ∧ (∀ c ∈ new, Call.isSftpUpload c = true → c = .sftpUploadFile localPath remotePath) := by
  rw [uploadFile_eq_live w localPath remotePath tr hlive]
  cases h0 : w.UploadFile (List.countP Call.isSftpUpload tr) with
  | none =>
    have hval : uploadFileLive w localPath remotePath tr = (none, tr ++
        [.uploadFile localPath remotePath, .sftpIsConnected,
          .sftpUploadFile localPath remotePath]) := by
      simp [uploadFileLive, h0]
    rw [hval]
    refine ⟨[.uploadFile localPath remotePath, .sftpIsConnected,
      .sftpUploadFile localPath remotePath], by simp, ?_, ?_, ?_, ?_, ?_, ?_, ?_⟩
    · intro k hk hfail hsucc
      have : k = 1 := by
        by_contra hne
        exact hfail 0 (by omega) (by simpa using h0)
      subst this; simp [List.countP_cons, Call.isSftpUpload]
    · intro hall; exact absurd (by simpa using h0) (hall 0 (by omega))
    · simp [List.countP_cons, Call.isSftpUpload]
    · simp only [true_iff]; exact ⟨0, by omega, by simpa using h0⟩
    · intro hall; exact absurd (by simpa using h0) (hall 0 (by omega))
    · simp [List.countP_cons, Call.isSftpUpload, Call.isAttemptFailedLog, failedAttempts,
        List.range_succ, List.filter_cons, h0]
    · intro c hc hu
      simp only [List.mem_cons, List.mem_singleton, List.not_mem_nil, or_false] at hc
      rcases hc with rfl | rfl | rfl <;> simp_all [Call.isSftpUpload]
  | some e0 =>
    cases h1 : w.UploadFile (List.countP Call.isSftpUpload tr + 1) with
    | none =>
      have hval : uploadFileLive w localPath remotePath tr = (none, tr ++
          [.uploadFile localPath remotePath, .sftpIsConnected,
            .sftpUploadFile localPath remotePath, .Printf (.uploadAttemptFailed 1 3 e0),
            .Sleep 1, .sftpIsConnected, .sftpUploadFile localPath remotePath]) := by
        simp [uploadFileLive, h0, h1]
      rw [hval]
      refine ⟨[.uploadFile localPath remotePath, .sftpIsConnected,
        .sftpUploadFile localPath remotePath, .Printf (.uploadAttemptFailed 1 3 e0), .Sleep 1,
        .sftpIsConnected, .sftpUploadFile localPath remotePath], by simp, ?_, ?_, ?_, ?_, ?_, ?_, ?_⟩
      · intro k hk hfail hsucc
        have : k = 2 := by
          by_contra hne
          rcases Nat.lt_or_ge k 2 with hlt | hge
          · have hk1 : k = 1 := by omega
            subst hk1; simp [h0] at hsucc
          · exact hfail 1 (by omega) h1
        subst this; simp [List.countP_cons, Call.isSftpUpload]
      · intro hall; exact absurd h1 (hall 1 (by omega))
      · simp [List.countP_cons, Call.isSftpUpload]
      · simp only [true_iff]; exact ⟨1, by omega, h1⟩
      · intro hall; exact absurd h1 (hall 1 (by omega))
      · simp [List.countP_cons, Call.isSftpUpload, Call.isAttemptFailedLog, failedAttempts,
          List.range_succ, List.filter_cons, h0, h1]
      · intro c hc hu
        simp only [List.mem_cons, List.mem_singleton, List.not_mem_nil, or_false] at hc
        rcases hc with rfl | rfl | rfl | rfl | rfl | rfl | rfl <;> simp_all [Call.isSftpUpload]
    | some e1 =>
      cases h2 : w.UploadFile (List.countP Call.isSftpUpload tr + 2) with
      | none =>
        have hval : uploadFileLive w localPath remotePath tr = (none, tr ++
            [.uploadFile localPath remotePath, .sftpIsConnected,
              .sftpUploadFile localPath remotePath, .Printf (.uploadAttemptFailed 1 3 e0),
              .Sleep 1, .sftpIsConnected, .sftpUploadFile localPath remotePath,
              .Printf (.uploadAttemptFailed 2 3 e1), .Sleep 2,
              .sftpIsConnected, .sftpUploadFile localPath remotePath]) := by
          simp [uploadFileLive, h0, h1, h2]
        rw [hval]
        refine ⟨[.uploadFile localPath remotePath, .sftpIsConnected,
          .sftpUploadFile localPath remotePath, .Printf (.uploadAttemptFailed 1 3 e0), .Sleep 1,
          .sftpIsConnected, .sftpUploadFile localPath remotePath,
          .Printf (.uploadAttemptFailed 2 3 e1), .Sleep 2,
          .sftpIsConnected, .sftpUploadFile localPath remotePath], by simp, ?_, ?_, ?_, ?_, ?_, ?_, ?_⟩
        · intro k hk hfail hsucc
          have : k = 3 := by
            by_contra hne
            rcases Nat.lt_or_ge k 3 with hlt | hge
            · have hk12 : k = 1 ∨ k = 2 := by omega
              rcases hk12 with rfl | rfl
              · simp [h0] at hsucc
              · simp [h1] at hsucc
            · exact hfail 2 (by omega) h2
          subst this; simp [List.countP_cons, Call.isSftpUpload]
        · intro hall; exact absurd h2 (hall 2 (by omega))
        · simp [List.countP_cons, Call.isSftpUpload]
        · simp only [true_iff]; exact ⟨2, by omega, h2⟩
        · intro hall; exact absurd h2 (hall 2 (by omega))
        · simp [List.countP_cons, Call.isSftpUpload, Call.isAttemptFailedLog, failedAttempts,
            List.range_succ, List.filter_cons, h0, h1, h2]
        · intro c hc hu
          simp only [List.mem_cons, List.mem_singleton, List.not_mem_nil, or_false] at hc
          rcases hc with rfl | rfl | rfl | rfl | rfl | rfl | rfl | rfl | rfl | rfl | rfl <;>
            simp_all [Call.isSftpUpload]
      | some e2 =>
        have hval : uploadFileLive w localPath remotePath tr = (some e2, tr ++
            [.uploadFile localPath remotePath, .sftpIsConnected,
              .sftpUploadFile localPath remotePath, .Printf (.uploadAttemptFailed 1 3 e0),
              .Sleep 1, .sftpIsConnected, .sftpUploadFile localPath remotePath,
              .Printf (.uploadAttemptFailed 2 3 e1), .Sleep 2,
              .sftpIsConnected, .sftpUploadFile localPath remotePath,
              .Printf (.uploadAttemptFailed 3 3 e2), .Sleep 3]) := by
          simp [uploadFileLive, h0, h1, h2]
        rw [hval]
        refine ⟨[.uploadFile localPath remotePath, .sftpIsConnected,
          .sftpUploadFile localPath remotePath, .Printf (.uploadAttemptFailed 1 3 e0), .Sleep 1,
          .sftpIsConnected, .sftpUploadFile localPath remotePath,
          .Printf (.uploadAttemptFailed 2 3 e1), .Sleep 2,
          .sftpIsConnected, .sftpUploadFile localPath remotePath,
          .Printf (.uploadAttemptFailed 3 3 e2), .Sleep 3], by simp, ?_, ?_, ?_, ?_, ?_, ?_, ?_⟩
        · intro k hk hfail hsucc
          have : 4 ≤ k := by
            by_contra hne
            have hk123 : k = 1 ∨ k = 2 ∨ k = 3 := by omega
            rcases hk123 with rfl | rfl | rfl
            · simp [h0] at hsucc
            · simp [h1] at hsucc
            · simp [h2] at hsucc
          simp [List.countP_cons, Call.isSftpUpload]; omega
        · intro _; simp [List.countP_cons, Call.isSftpUpload]
        · simp [List.countP_cons, Call.isSftpUpload]
        · constructor
          · intro h; exact absurd h (by simp)
          · rintro ⟨j, hj, hnone⟩
            have hj' : j = 0 ∨ j = 1 ∨ j = 2 := by omega
            rcases hj' with rfl | rfl | rfl <;> simp [h0, h1, h2] at hnone
        · intro _; simp [h2]
        · simp [List.countP_cons, Call.isSftpUpload, Call.isAttemptFailedLog, failedAttempts,
            List.range_succ, List.filter_cons, h0, h1, h2]
        · intro c hc hu
          simp only [List.mem_cons, List.mem_singleton, List.not_mem_nil, or_false] at hc
          rcases hc with rfl | rfl | rfl | rfl | rfl | rfl | rfl | rfl | rfl | rfl | rfl | rfl | rfl <;>
            simp_all [Call.isSftpUpload]

theorem uploadFile_retry_witness :
    (∀ n, (liveWorld [0]).IsConnected n = true)
    ∧ (DirectorySync.uploadFile (liveWorld [0]) (go "/w/a.go") (go "/srv/a.go") []).1 = none
    ∧ ∃ new : Trace,
        (DirectorySync.uploadFile (liveWorld [0]) (go "/w/a.go") (go "/srv/a.go") []).2
          = [] ++ new
        ∧ new.countP Call.isSftpUpload = 2
        ∧ new.countP Call.isAttemptFailedLog = 1 := by
  obtain ⟨new, htr, hk, _, _, hiff, _, hlog, _⟩ :=
    uploadFile_retry (liveWorld [0]) (go "/w/a.go") (go "/srv/a.go") [] (fun _ => rfl)
  have h2 : new.countP Call.isSftpUpload = 2 :=
    hk 2 (by decide) (by intro j hj; have : j = 0 := by omega
                         subst this; decide) (by decide)
  refine ⟨fun _ => rfl, hiff.2 ⟨1, by decide, by decide⟩, new, htr, h2, ?_⟩
  rw [hlog, h2]; decide

/-! ## Delete propagation -/

theorem getRemotePath_fst (config : Config) (localPath : GoString) (tr : Trace) :
    (DirectorySync.getRemotePath config localPath tr).1 = remotePathOf config localPath := by
  unfold remotePathOf DirectorySync.getRemotePath
  cases filepathRel config.LocalDirectory localPath <;> rfl

theorem getRemotePath_snd (config : Config) (localPath : GoString) (tr : Trace) :
    ∃ logs : Trace, (DirectorySync.getRemotePath config localPath tr).2 = tr ++ logs
      ∧ uploadsOf logs = [] ∧ removesOf logs = []
      ∧ logs.countP Call.isSftpUpload = 0 := by
  unfold DirectorySync.getRemotePath
  cases filepathRel config.LocalDirectory localPath with
  | error e => exact ⟨[.Printf (.relFailed e)], rfl, rfl, rfl, rfl⟩
  | ok r => exact ⟨[], by simp, rfl, rfl, rfl⟩

theorem removesOf_append (a b : Trace) : removesOf (a ++ b) = removesOf a ++ removesOf b := by
  simp [removesOf, List.filterMap_append]

theorem uploadsOf_append (a b : Trace) : uploadsOf (a ++ b) = uploadsOf a ++ uploadsOf b := by
  simp [uploadsOf, List.filterMap_append]

/-- C7. For a non-ignored path whose local file no longer exists, with a live
session, `handleFileChange` makes exactly one `RemoveFile` call, on the remote
path `getRemotePath` maps the path to, when `delete_remote` is on, and none
when it is off; either way it makes no upload. -/
theorem handleFileChange_delete (config : Config) (w : World) (localPath : GoString)
    (tr : Trace)
    (hign : DirectorySync.shouldIgnoreFile config localPath = false)
    (hgone : w.Stat localPath = .err .notExist)
    (hlive : ∀ n, w.IsConnected n = true) :
    ∃ new : Trace,
      DirectorySync.handleFileChange config w localPath tr = tr ++ new
      ∧ (config.DeleteRemote = true →
          removesOf new = [(DirectorySync.getRemotePath config localPath tr).1])
      ∧ (config.DeleteRemote = false → removesOf new = [])
      ∧ uploadsOf new = []
      ∧ new.countP Call.isSftpUpload = 0 := by
  obtain ⟨logs, hlogs, hlu, hlr, hlc⟩ :=
    getRemotePath_snd config localPath (tr ++ [.sftpIsConnected])
  have hfst := getRemotePath_fst config localPath (tr ++ [.sftpIsConnected])
  rw [getRemotePath_fst config localPath tr]
  unfold DirectorySync.handleFileChange
  simp only [hign, Bool.false_eq_true, if_false, ensureConnection_live _ _ hlive, hgone,
    if_true, hfst, hlogs]
  unfold DirectorySync.handleFileDelete
  cases hdel : config.DeleteRemote with
  | false =>
    refine ⟨[.sftpIsConnected] ++ logs, by simp, by simp, ?_, ?_, ?_⟩
    · intro _; rw [removesOf_append, hlr]; rfl
    · rw [uploadsOf_append, hlu]; rfl
    · simp [List.countP_append, hlc, List.countP_cons, Call.isSftpUpload]
  | true =>
    simp only [if_true]
    cases w.RemoveFile (List.countP Call.isSftpRemove (tr ++ [Call.sftpIsConnected] ++ logs)) with
    | none =>
      refine ⟨[.sftpIsConnected] ++ logs ++ [.sftpRemoveFile (remotePathOf config localPath),
        .Printf (.remoteDeleted (remotePathOf config localPath))], by simp, ?_, by simp, ?_, ?_⟩
      · intro _; rw [removesOf_append, removesOf_append, hlr]; rfl
      · rw [uploadsOf_append, uploadsOf_append, hlu]; rfl
      · simp [List.countP_append, hlc, List.countP_cons, Call.isSftpUpload]
    | some e =>
      refine ⟨[.sftpIsConnected] ++ logs ++ [.sftpRemoveFile (remotePathOf config localPath),
        .Printf (.remoteDeleteFailed (remotePathOf config localPath) e)], by simp, ?_, by simp,
        ?_, ?_⟩
      · intro _; rw [removesOf_append, removesOf_append, hlr]; rfl
      · rw [uploadsOf_append, uploadsOf_append, hlu]; rfl
      · simp [List.countP_append, hlc, List.countP_cons, Call.isSftpUpload]

theorem handleFileChange_delete_witness :
    DirectorySync.shouldIgnoreFile deletingConfig (go "/home/u/proj/src/a.go") = false
    ∧ goneWorld.Stat (go "/home/u/proj/src/a.go") = .err .notExist
    ∧ (∀ n, goneWorld.IsConnected n = true)
    ∧ ∃ new : Trace,
        DirectorySync.handleFileChange deletingConfig goneWorld (go "/home/u/proj/src/a.go") []
          = [] ++ new
        ∧ removesOf new = [go "/srv/proj/src/a.go"]
        ∧ uploadsOf new = [] := by
  obtain ⟨new, htr, hdel, _, hup, _⟩ :=
    handleFileChange_delete deletingConfig goneWorld (go "/home/u/proj/src/a.go") []
      (by decide) rfl (fun _ => rfl)
  refine ⟨by decide, rfl, fun _ => rfl, new, htr, ?_, hup⟩
  rw [hdel rfl]; decide

/-! ## The life cycle of the orchestrator -/

/-- C9. Whatever sequence of `Start` and `Stop` calls led to the current
state: `Start` called while running returns the "already running" error and
leaves the state (the flag, the watcher, the calls made to the session, the
logger and the runtime) unchanged, and `Stop` called while stopped leaves the
state unchanged. -/
theorem start_stop_guards (config : Config) (w : World) (calls : List LifecycleCall)
    (ds0 : DirectorySync) :
    ((lifecycleRun config w calls ds0).running = true →
        DirectorySync.Start config w (lifecycleRun config w calls ds0)
          = (some .alreadyRunning, lifecycleRun config w calls ds0))
    ∧ ((lifecycleRun config w calls ds0).running = false →
        DirectorySync.Stop (lifecycleRun config w calls ds0)
          = lifecycleRun config w calls ds0) := by
  constructor
  · intro h; simp [DirectorySync.Start, h]
  · intro h; simp [DirectorySync.Stop, h]

theorem start_stop_guards_witness :
    (lifecycleRun (configOf "/home/u/proj" "/srv/proj" []) oneFileWorld [.Start]
        NewDirectorySync).running = true
    ∧ DirectorySync.Start (configOf "/home/u/proj" "/srv/proj" []) oneFileWorld
        (lifecycleRun (configOf "/home/u/proj" "/srv/proj" []) oneFileWorld [.Start]
          NewDirectorySync)
      = (some .alreadyRunning,
          lifecycleRun (configOf "/home/u/proj" "/srv/proj" []) oneFileWorld [.Start]
            NewDirectorySync)
    ∧ (lifecycleRun (configOf "/home/u/proj" "/srv/proj" []) oneFileWorld [.Start, .Stop]
        NewDirectorySync).running = false
    ∧ DirectorySync.Stop
        (lifecycleRun (configOf "/home/u/proj" "/srv/proj" []) oneFileWorld [.Start, .Stop]
          NewDirectorySync)
      = lifecycleRun (configOf "/home/u/proj" "/srv/proj" []) oneFileWorld [.Start, .Stop]
          NewDirectorySync :=
  ⟨by decide,
   (start_stop_guards (configOf "/home/u/proj" "/srv/proj" []) oneFileWorld [.Start]
      NewDirectorySync).1 (by decide),
   by decide,
   (start_stop_guards (configOf "/home/u/proj" "/srv/proj" []) oneFileWorld [.Start, .Stop]
      NewDirectorySync).2 (by decide)⟩

/-! ## The walk -/

mutual
theorem walk_preserves {σ : Type} (P : σ → Prop) (walkFn : WalkFunc σ)
    (hfn : ∀ path info err st, P st → P (walkFn path info err st).2)
    (path : GoString) : ∀ (node : FsNode) (st : σ), P st → P (walk walkFn path node st).2
  | .file, st, h => by rw [walk]; exact hfn _ _ _ _ h
  | .lstatError e, st, h => by rw [walk]; exact hfn _ _ _ _ h
  | .unreadableDir e, st, h => by rw [walk]; exact hfn _ _ _ _ h
  | .dir entries, st, h => by
    rw [walk]
    split
    · exact hfn _ _ _ _ h
    · exact walkNames_preserves P walkFn hfn path entries _ (hfn _ _ _ _ h)
theorem walkNames_preserves {σ : Type} (P : σ → Prop) (walkFn : WalkFunc σ)
    (hfn : ∀ path info err st, P st → P (walkFn path info err st).2)
    (path : GoString) :
    ∀ (entries : List (GoString × FsNode)) (st : σ), P st →
      P (walkNames walkFn path entries st).2
  | [], st, h => by rw [walkNames]; exact h
  | (name, .lstatError e) :: rest, st, h => by
    rw [walkNames]
    split
    · exact hfn _ _ _ _ h
    · exact walkNames_preserves P walkFn hfn path rest _ (hfn _ _ _ _ h)
  | (name, .file) :: rest, st, h => by
    rw [walkNames]
    split
    · exact walk_preserves P walkFn hfn _ .file st h
    · exact walkNames_preserves P walkFn hfn path rest _ (walk_preserves P walkFn hfn _ .file st h)
  | (name, .unreadableDir e) :: rest, st, h => by
    rw [walkNames]
    split
    · exact walk_preserves P walkFn hfn _ (.unreadableDir e) st h
    · exact walkNames_preserves P walkFn hfn path rest _
        (walk_preserves P walkFn hfn _ (.unreadableDir e) st h)
  | (name, .dir entries) :: rest, st, h => by
    rw [walkNames]
    split
    · exact walk_preserves P walkFn hfn _ (.dir entries) st h
    · exact walkNames_preserves P walkFn hfn path rest _
        (walk_preserves P walkFn hfn _ (.dir entries) st h)
end

theorem filepathWalk_preserves {σ : Type} (P : σ → Prop) (walkFn : WalkFunc σ)
    (hfn : ∀ path info err st, P st → P (walkFn path info err st).2)
    (root : GoString) (node : FsNode) (st : σ) (h : P st) :
    P (filepathWalk root node walkFn st).2 := by
  unfold filepathWalk
  have := walk_preserves P walkFn hfn root node st h
  dsimp only
  split <;> exact this

theorem addWatchFn_core (config : Config) (w : World) (path : GoString) (info : Option Bool)
    (err : Option GoError) (st : FileWatcher × Trace) :
    (FileWatcher.addWatchFn config w path info err st).2.1.core = st.1.core := by
  unfold FileWatcher.addWatchFn
  split
  · rfl
  · split
    · split <;> rfl
    · rfl

theorem addWatchRecursively_core (config : Config) (w : World) (root : GoString)
    (st : FileWatcher × Trace) :
    (FileWatcher.addWatchRecursively config w root st).2.1.core = st.1.core := by
  unfold FileWatcher.addWatchRecursively
  exact filepathWalk_preserves (fun s => s.1.core = st.1.core) _
    (fun path info err s hs => by
      show (FileWatcher.addWatchFn config w path info err s).2.1.core = st.1.core
      rw [addWatchFn_core]; exact hs) root _ st rfl

/-! ## The bounded change queue -/

theorem debounceChange_core (config : Config) (fw : FileWatcher) (now : Nat)
    (filePath : GoString) :
    (FileWatcher.debounceChange config fw now filePath).changeQueue = fw.changeQueue
    ∧ (FileWatcher.debounceChange config fw now filePath).queueClosed = fw.queueClosed
    ∧ (FileWatcher.debounceChange config fw now filePath).panicked = fw.panicked :=
  ⟨rfl, rfl, rfl⟩

theorem handleEvent_queue (config : Config) (w : World) (now : Nat) (e : Event)
    (st : FileWatcher × Trace) :
    (FileWatcher.handleEvent config w now e st).1.changeQueue = st.1.changeQueue
    ∧ (FileWatcher.handleEvent config w now e st).1.queueClosed = st.1.queueClosed
    ∧ (FileWatcher.handleEvent config w now e st).1.panicked = st.1.panicked := by
  have hc := addWatchRecursively_core config w e.Name st
  simp only [FileWatcher.core, Prod.mk.injEq] at hc
  obtain ⟨_, hq, hcl, _, _, _, _, hp⟩ := hc
  unfold FileWatcher.handleEvent
  split
  · exact ⟨rfl, rfl, rfl⟩
  · split <;> split <;> simp [FileWatcher.debounceChange, hq, hcl, hp]

theorem timerFunc_open (st : FileWatcher × Trace) (filePath : GoString)
    (hopen : st.1.queueClosed = false) :
    (st.1.changeQueue.length < changeQueueCap →
        (FileWatcher.timerFunc st filePath).1.changeQueue = st.1.changeQueue ++ [filePath]
        ∧ (FileWatcher.timerFunc st filePath).2 = st.2)
    ∧ (¬ st.1.changeQueue.length < changeQueueCap →
        (FileWatcher.timerFunc st filePath).1.changeQueue = st.1.changeQueue
        ∧ (FileWatcher.timerFunc st filePath).2 = st.2 ++ [.Printf (.queueFull filePath)])
    ∧ (FileWatcher.timerFunc st filePath).1.queueClosed = false
    ∧ (FileWatcher.timerFunc st filePath).1.panicked = st.1.panicked
    ∧ (FileWatcher.timerFunc st filePath).1.timers = st.1.timers
    ∧ (FileWatcher.timerFunc st filePath).1.debounceMap = mapDelete st.1.debounceMap filePath
    ∧ (FileWatcher.timerFunc st filePath).1.nextTimer = st.1.nextTimer
    ∧ (FileWatcher.timerFunc st filePath).1.fired = st.1.fired := by
  unfold FileWatcher.timerFunc
  simp only [hopen, Bool.false_eq_true, if_false]
  by_cases hlt : st.1.changeQueue.length < changeQueueCap
  · simp [hlt, hopen]
  · simp [hlt, hopen]

theorem fireTimer_pending (st : FileWatcher × Trace) (id : Nat) (t : Timer)
    (hfind : (st.1.timers.find? fun t => t.id = id) = some t) :
    FileWatcher.fireTimer st id
      = some (FileWatcher.timerFunc
          ({ st.1 with timers := stopTimer st.1.timers id }, st.2) t.filePath) := by
  have hid : t.id = id := by
    have := List.find?_some hfind
    simpa using this
  unfold FileWatcher.fireTimer FileWatcher.timerFires FileWatcher.closureRuns
  simp only [hfind, List.find?_cons, hid, decide_True, List.eraseP_cons_of_pos]

theorem timerFires_none (fw : FileWatcher) (id : Nat)
    (hfind : (fw.timers.find? fun t => t.id = id) = none) :
    FileWatcher.timerFires fw id = none := by
  unfold FileWatcher.timerFires
  simp only [hfind]

theorem timerFires_pending (fw : FileWatcher) (id : Nat) (t : Timer)
    (hfind : (fw.timers.find? fun t => t.id = id) = some t) :
    FileWatcher.timerFires fw id
      = some { fw with timers := stopTimer fw.timers id, fired := t :: fw.fired } := by
  unfold FileWatcher.timerFires
  simp only [hfind]

theorem closureRuns_none (st : FileWatcher × Trace) (id : Nat)
    (hfind : (st.1.fired.find? fun t => t.id = id) = none) :
    FileWatcher.closureRuns st id = none := by
  unfold FileWatcher.closureRuns
  simp only [hfind]

theorem closureRuns_fired (st : FileWatcher × Trace) (id : Nat) (t : Timer)
    (hfind : (st.1.fired.find? fun t => t.id = id) = some t) :
    FileWatcher.closureRuns st id
      = some (FileWatcher.timerFunc
          ({ st.1 with fired := st.1.fired.eraseP fun t => t.id = id }, st.2) t.filePath) := by
  unfold FileWatcher.closureRuns
  simp only [hfind]

theorem take_queue (fw : FileWatcher) :
    (FileWatcher.take fw).2.changeQueue = fw.changeQueue.tail
    ∧ (FileWatcher.take fw).2.queueClosed = fw.queueClosed
    ∧ (FileWatcher.take fw).2.panicked = fw.panicked := by
  unfold FileWatcher.take
  split
  · next h => simp [h]
  · next h => simp [h]

theorem watcherStep_queue_inv (config : Config) (w : World) (st : FileWatcher × Trace)
    (op : WatcherOp) (hop : op ≠ .stop)
    (h : st.1.changeQueue.length ≤ changeQueueCap ∧ st.1.queueClosed = false
      ∧ st.1.panicked = false) :
    (watcherStep config w st op).1.changeQueue.length ≤ changeQueueCap
    ∧ (watcherStep config w st op).1.queueClosed = false
    ∧ (watcherStep config w st op).1.panicked = false := by
  obtain ⟨hlen, hopen, hpan⟩ := h
  cases op with
  | event now e =>
    obtain ⟨h1, h2, h3⟩ := handleEvent_queue config w now e st
    simp only [watcherStep, hpan, Bool.false_eq_true, if_false, h1, h2, h3]
    exact ⟨hlen, hopen, trivial⟩
  | expire now id =>
    simp only [watcherStep, hpan, Bool.false_eq_true, if_false]
    cases hfind : (st.1.timers.find? fun t => t.id = id) with
    | none =>
      have : FileWatcher.fireTimer st id = none := by
        unfold FileWatcher.fireTimer; rw [timerFires_none st.1 id hfind]
      simp only [this, Option.getD_none]
      exact ⟨hlen, hopen, hpan⟩
    | some t =>
      rw [fireTimer_pending st id t hfind, Option.getD_some]
      obtain ⟨hlt, hge, hcl, hp, _⟩ :=
        timerFunc_open ({ st.1 with timers := stopTimer st.1.timers id }, st.2) t.filePath hopen
      refine ⟨?_, hcl, by rw [hp]; exact hpan⟩
      by_cases hc : st.1.changeQueue.length < changeQueueCap
      · rw [(hlt hc).1]; simp only [List.length_append, List.length_singleton]; omega
      · rw [(hge hc).1]; exact hlen
  | fires now id =>
    simp only [watcherStep, hpan, Bool.false_eq_true, if_false]
    cases hfind : (st.1.timers.find? fun t => t.id = id) with
    | none =>
      rw [timerFires_none st.1 id hfind]
      exact ⟨hlen, hopen, hpan⟩
    | some t =>
      rw [timerFires_pending st.1 id t hfind]
      exact ⟨hlen, hopen, hpan⟩
  | runs id =>
    simp only [watcherStep, hpan, Bool.false_eq_true, if_false]
    cases hfind : (st.1.fired.find? fun t => t.id = id) with
    | none =>
      rw [closureRuns_none st id hfind]
      exact ⟨hlen, hopen, hpan⟩
    | some t =>
      rw [closureRuns_fired st id t hfind, Option.getD_some]
      obtain ⟨hlt, hge, hcl, hp, _⟩ :=
        timerFunc_open ({ st.1 with fired := st.1.fired.eraseP fun t => t.id = id }, st.2)
          t.filePath hopen
      refine ⟨?_, hcl, by rw [hp]; exact hpan⟩
      by_cases hc : st.1.changeQueue.length < changeQueueCap
      · rw [(hlt hc).1]; simp only [List.length_append, List.length_singleton]; omega
      · rw [(hge hc).1]; exact hlen
  | take =>
    obtain ⟨h1, h2, h3⟩ := take_queue st.1
    have hstep : watcherStep config w st .take = ((FileWatcher.take st.1).2, st.2) := by
      simp only [watcherStep, hpan, Bool.false_eq_true, if_false]
    rw [hstep]
    refine ⟨?_, by rw [h2]; exact hopen, by rw [h3]; exact hpan⟩
    rw [h1, List.length_tail]; omega
  | stop => exact absurd rfl hop

theorem watcherRun_queue_inv (config : Config) (w : World) (ops : List WatcherOp)
    (hops : ∀ op ∈ ops, op ≠ .stop) (st : FileWatcher × Trace)
    (h : st.1.changeQueue.length ≤ changeQueueCap ∧ st.1.queueClosed = false
      ∧ st.1.panicked = false) :
    (watcherRun config w ops st).1.changeQueue.length ≤ changeQueueCap
    ∧ (watcherRun config w ops st).1.queueClosed = false
    ∧ (watcherRun config w ops st).1.panicked = false := by
  induction ops generalizing st with
  | nil => exact h
  | cons op rest ih =>
    simp only [watcherRun, List.foldl_cons]
    exact ih (fun o ho => hops o (List.mem_cons_of_mem _ ho)) _
      (watcherStep_queue_inv config w st op (hops op (List.mem_cons_self _ _)) h)

/-- C5. From a watcher whose change queue is open and holds at most 1000
paths (a new watcher in particular), after any sequence of raw events, timer
expiries (the timer firing and its function running, back to back or with
other steps in between) and consumer receives (no `Stop`) the change queue
holds at most 1000 paths, is open, and no goroutine has panicked; from such a state the expiry
of a pending timer completes (it yields a state, neither blocked nor
panicked): with fewer than 1000 queued paths it appends its path at the tail
and logs nothing, with exactly 1000 it leaves the queue as it is and logs the
dropped path. -/
theorem changeQueue_bounded (config : Config) (w : World) (ops : List WatcherOp)
    (st0 : FileWatcher × Trace)
    (hops : ∀ op ∈ ops, op ≠ .stop)
    (hlen0 : st0.1.changeQueue.length ≤ 1000)
    (hopen0 : st0.1.queueClosed = false)
    (hpan0 : st0.1.panicked = false) :
    (watcherRun config w ops st0).1.changeQueue.length ≤ 1000
    ∧ (watcherRun config w ops st0).1.queueClosed = false
    ∧ (watcherRun config w ops st0).1.panicked = false
    ∧ ∀ (now id : Nat) (t : Timer),
        ((watcherRun config w ops st0).1.timers.find? fun t => t.id = id) = some t →
        ((watcherRun config w ops st0).1.changeQueue.length < 1000 →
          (watcherRun config w (ops ++ [.expire now id]) st0).1.changeQueue
              = (watcherRun config w ops st0).1.changeQueue ++ [t.filePath]
          ∧ (watcherRun config w (ops ++ [.expire now id]) st0).2
              = (watcherRun config w ops st0).2)
        ∧ ((watcherRun config w ops st0).1.changeQueue.length = 1000 →
          (watcherRun config w (ops ++ [.expire now id]) st0).1.changeQueue
              = (watcherRun config w ops st0).1.changeQueue
          ∧ (watcherRun config w (ops ++ [.expire now id]) st0).2
              = (watcherRun config w ops st0).2 ++ [.Printf (.queueFull t.filePath)])
        ∧ (watcherRun config w (ops ++ [.expire now id]) st0).1.panicked = false := by
  obtain ⟨hlen, hopen, hpan⟩ :=
    watcherRun_queue_inv config w ops hops st0 ⟨hlen0, hopen0, hpan0⟩
  refine ⟨hlen, hopen, hpan, ?_⟩
  intro now id t hfind
  have hrun : watcherRun config w (ops ++ [.expire now id]) st0
      = FileWatcher.timerFunc
          ({ (watcherRun config w ops st0).1 with
              timers := stopTimer (watcherRun config w ops st0).1.timers id },
            (watcherRun config w ops st0).2) t.filePath := by
    simp only [watcherRun, List.foldl_append, List.foldl_cons, List.foldl_nil, watcherStep]
    simp only [watcherRun] at hpan hfind
    simp only [hpan, Bool.false_eq_true, if_false, fireTimer_pending _ id t hfind,
      Option.getD_some]
  obtain ⟨hlt, hge, _, hp, _⟩ :=
    timerFunc_open
      ({ (watcherRun config w ops st0).1 with
          timers := stopTimer (watcherRun config w ops st0).1.timers id },
        (watcherRun config w ops st0).2) t.filePath hopen
  rw [hrun]
  refine ⟨fun hc => hlt hc, fun hc => hge ?_, by rw [hp]; exact hpan⟩
  show ¬ (watcherRun config w ops st0).1.changeQueue.length < changeQueueCap
  rw [hc]; decide

theorem changeQueue_bounded_witness :
    (∀ op ∈ ([] : List WatcherOp), op ≠ .stop)
    ∧ (fullWatcher, ([] : Trace)).1.changeQueue.length ≤ 1000
    ∧ (fullWatcher, ([] : Trace)).1.queueClosed = false
    ∧ (fullWatcher, ([] : Trace)).1.panicked = false
    ∧ (watcherRun (configOf "/w" "/srv" []) goneWorld ([] ++ [.expire 5 0])
          (fullWatcher, [])).1.changeQueue = fullWatcher.changeQueue
    ∧ (watcherRun (configOf "/w" "/srv" []) goneWorld ([] ++ [.expire 5 0])
          (fullWatcher, [])).2 = [.Printf (.queueFull (go "/w/late.go"))]
    ∧ (watcherRun (configOf "/w" "/srv" []) goneWorld ([] ++ [.expire 5 0])
          (fullWatcher, [])).1.panicked = false := by
  have hlen : (fullWatcher, ([] : Trace)).1.changeQueue.length = 1000 := by
    show (List.replicate 1000 (go "/w/a.go")).length = 1000
    exact List.length_replicate _ _
  obtain ⟨_, _, _, hexp⟩ :=
    changeQueue_bounded (configOf "/w" "/srv" []) goneWorld [] (fullWatcher, [])
      (by simp) (by rw [hlen]) rfl rfl
  obtain ⟨_, hfull, hp⟩ := hexp 5 0 ⟨0, go "/w/late.go", 5⟩ (by decide)
  exact ⟨by simp, by rw [hlen], rfl, rfl, (hfull hlen).1, (hfull hlen).2, hp⟩

/-! ## Shutdown of the watcher -/

/-- C10 (the code at the failing input). `FileWatcher.Stop` closes the change
queue and leaves every pending debounce timer pending; after one raw event
and `Stop`, the timer of the event is still pending, and its expiry sends on
the closed change queue, which panics. -/
theorem stop_leaves_timers_pending :
    (∀ fw : FileWatcher, (FileWatcher.Stop fw).timers = fw.timers)
    ∧ (watcherRun (configOf "/w" "/srv" []) goneWorld
        [.event 0 ⟨go "/w/a.go", opWrite⟩, .stop] (NewFileWatcher, [])).1.timers
        = [⟨0, go "/w/a.go", 2000000000⟩]
    ∧ (watcherRun (configOf "/w" "/srv" []) goneWorld
        [.event 0 ⟨go "/w/a.go", opWrite⟩, .stop] (NewFileWatcher, [])).1.queueClosed = true
    ∧ (watcherRun (configOf "/w" "/srv" []) goneWorld
        [.event 0 ⟨go "/w/a.go", opWrite⟩, .stop] (NewFileWatcher, [])).1.panicked = false
    ∧ (watcherRun (configOf "/w" "/srv" []) goneWorld
        [.event 0 ⟨go "/w/a.go", opWrite⟩, .stop, .expire 2000000000 0]
        (NewFileWatcher, [])).1.panicked = true := by
  refine ⟨?_, by decide, by decide, by decide, by decide⟩
  intro fw
  unfold FileWatcher.Stop
  dsimp only
  split <;> rfl

/-! ## The initial sync -/

theorem uploadsOf_ensureConnection (w : World) (tr : Trace) :
    uploadsOf (DirectorySync.ensureConnection w tr).2 = uploadsOf tr := by
  unfold DirectorySync.ensureConnection
  dsimp only
  split
  · rw [uploadsOf_append]; simp [uploadsOf]
  · split <;> simp [uploadsOf_append, uploadsOf]

theorem uploadsOf_uploadLoop (w : World) (l r : GoString) (m n i : Nat)
    (err : Option GoError) (tr : Trace) :
    uploadsOf (DirectorySync.uploadLoop w l r m n i err tr).2 = uploadsOf tr := by
  induction n generalizing i err tr with
  | zero => rfl
  | succ n ih =>
    rw [DirectorySync.uploadLoop]
    dsimp only
    split
    · exact uploadsOf_ensureConnection w tr
    · split
      · rw [uploadsOf_append, uploadsOf_ensureConnection]; simp [uploadsOf]
      · rw [ih, uploadsOf_append, uploadsOf_append, uploadsOf_ensureConnection]
        simp [uploadsOf]

theorem uploadsOf_uploadFile (w : World) (l r : GoString) (tr : Trace) :
    uploadsOf (DirectorySync.uploadFile w l r tr).2 = uploadsOf tr ++ [(l, r)] := by
  unfold DirectorySync.uploadFile
  dsimp only
  rw [uploadsOf_uploadLoop, uploadsOf_append]
  rfl

theorem initialSyncFn_error (config : Config) (w : World) (path : GoString)
    (info : Option Bool) (e : GoError) (tr : Trace) :
    (DirectorySync.initialSyncFn config w path info (some e) tr).1 = .nil
    ∧ uploadsOf (DirectorySync.initialSyncFn config w path info (some e) tr).2
        = uploadsOf tr := by
  simp [DirectorySync.initialSyncFn, uploadsOf_append, uploadsOf]

theorem initialSyncFn_ignored (config : Config) (w : World) (path : GoString)
    (info : Option Bool) (tr : Trace)
    (hign : DirectorySync.shouldIgnoreFile config path = true) :
    DirectorySync.initialSyncFn config w path info none tr
      = (if info = some true then .SkipDir else .nil, tr) := by
  simp only [DirectorySync.initialSyncFn, hign, if_true]
  split <;> rfl

theorem initialSyncFn_dir (config : Config) (w : World) (path : GoString) (tr : Trace)
    (hign : DirectorySync.shouldIgnoreFile config path = false) :
    DirectorySync.initialSyncFn config w path (some true) none tr = (.nil, tr) := by
  simp [DirectorySync.initialSyncFn, hign]

theorem initialSyncFn_file (config : Config) (w : World) (path : GoString) (tr : Trace)
    (hign : DirectorySync.shouldIgnoreFile config path = false) :
    (DirectorySync.initialSyncFn config w path (some false) none tr).1 = .nil
    ∧ uploadsOf (DirectorySync.initialSyncFn config w path (some false) none tr).2
        = uploadsOf tr ++ [(path, remotePathOf config path)] := by
  obtain ⟨logs, hlogs, hlu, _, _⟩ := getRemotePath_snd config path tr
  have hfst := getRemotePath_fst config path tr
  have hup := uploadsOf_uploadFile w path (remotePathOf config path) (tr ++ logs)
  simp only [DirectorySync.initialSyncFn, hign, Bool.false_eq_true, if_false, hfst, hlogs]
  have hne : ¬ (some false = some true) := by simp
  simp only [ne_eq, hne, not_false_eq_true, if_true]
  split
  · refine ⟨rfl, ?_⟩
    rw [uploadsOf_append, hup, uploadsOf_append, hlu]
    simp [uploadsOf]
  · refine ⟨rfl, ?_⟩
    rw [hup, uploadsOf_append, hlu]
    simp

theorem eligible_of_dirs (config : Config) (path : GoString) (dirs : List GoString)
    (hd : ∀ d ∈ dirs, DirectorySync.shouldIgnoreFile config d = false) :
    eligible config (path, dirs) = !DirectorySync.shouldIgnoreFile config path := by
  unfold eligible
  have : (dirs.all fun d => !DirectorySync.shouldIgnoreFile config d) = true := by
    rw [List.all_eq_true]
    intro d hdm
    simp [hd d hdm]
  simp [this]

mutual
theorem fileEntries_dirs (dirs : List GoString) (path : GoString) :
    ∀ (node : FsNode) (e : GoString × List GoString), e ∈ fileEntries dirs path node →
      ∀ d ∈ dirs, d ∈ e.2
  | .file, e, he => by
    rw [fileEntries] at he
    simp only [List.mem_singleton] at he
    subst he; intro d hd; exact hd
  | .dir entries, e, he => by
    rw [fileEntries] at he
    intro d hd
    exact fileEntriesNames_dirs (path :: dirs) path entries e he d (List.mem_cons_of_mem _ hd)
  | .unreadableDir _, e, he => by rw [fileEntries] at he; cases he
  | .lstatError _, e, he => by rw [fileEntries] at he; cases he
theorem fileEntriesNames_dirs (dirs : List GoString) (path : GoString) :
    ∀ (entries : List (GoString × FsNode)) (e : GoString × List GoString),
      e ∈ fileEntriesNames dirs path entries → ∀ d ∈ dirs, d ∈ e.2
  | [], e, he => by rw [fileEntriesNames] at he; cases he
  | (name, child) :: rest, e, he => by
    rw [fileEntriesNames] at he
    rcases List.mem_append.1 he with h | h
    · exact fileEntries_dirs dirs _ child e h
    · exact fileEntriesNames_dirs dirs path rest e h
end

theorem filter_eligible_ignored_dir (config : Config) (dirs : List GoString)
    (path : GoString) (entries : List (GoString × FsNode))
    (hign : DirectorySync.shouldIgnoreFile config path = true) :
    (fileEntriesNames (path :: dirs) path entries).filter (eligible config) = [] := by
  rw [List.filter_eq_nil_iff]
  intro e he
  have hmem := fileEntriesNames_dirs (path :: dirs) path entries e he path
    (List.mem_cons_self _ _)
  unfold eligible
  simp only [Bool.and_eq_true, Bool.not_eq_true', List.all_eq_true, not_and]
  intro _ hall
  have := hall path hmem
  rw [hign] at this
  cases this

mutual
theorem walk_sync (config : Config) (w : World) (path : GoString) :
    ∀ (node : FsNode) (dirs : List GoString) (tr : Trace),
      (∀ d ∈ dirs, DirectorySync.shouldIgnoreFile config d = false) →
      uploadsOf (walk (DirectorySync.initialSyncFn config w) path node tr).2
          = uploadsOf tr ++ ((fileEntries dirs path node).filter (eligible config)).map
              (fun e => (e.1, remotePathOf config e.1))
      ∧ ((walk (DirectorySync.initialSyncFn config w) path node tr).1 = .nil
          ∨ ((walk (DirectorySync.initialSyncFn config w) path node tr).1 = .SkipDir
              ∧ node.IsDir = true))
  | .file, dirs, tr, hd => by
    rw [walk, fileEntries]
    cases hign : DirectorySync.shouldIgnoreFile config path with
    | true =>
      rw [initialSyncFn_ignored config w path _ tr hign]
      simp [List.filter_cons, eligible_of_dirs config path dirs hd, hign]
    | false =>
      obtain ⟨h1, h2⟩ := initialSyncFn_file config w path tr hign
      refine ⟨?_, Or.inl h1⟩
      rw [h2]
      simp [List.filter_cons, eligible_of_dirs config path dirs hd, hign]
  | .lstatError e, dirs, tr, hd => by
    rw [walk, fileEntries]
    obtain ⟨h1, h2⟩ := initialSyncFn_error config w path none e tr
    exact ⟨by rw [h2]; simp, Or.inl h1⟩
  | .unreadableDir e, dirs, tr, hd => by
    rw [walk, fileEntries]
    obtain ⟨h1, h2⟩ := initialSyncFn_error config w path (some true) e tr
    exact ⟨by rw [h2]; simp, Or.inl h1⟩
  | .dir entries, dirs, tr, hd => by
    rw [walk, fileEntries]
    cases hign : DirectorySync.shouldIgnoreFile config path with
    | true =>
      rw [initialSyncFn_ignored config w path _ tr hign,
        filter_eligible_ignored_dir config dirs path entries hign]
      simp [FsNode.IsDir]
    | false =>
      rw [initialSyncFn_dir config w path tr hign]
      simp only [ne_eq, not_true_eq_false, if_false]
      have hd' : ∀ d ∈ path :: dirs, DirectorySync.shouldIgnoreFile config d = false := by
        intro d hdm
        rcases List.mem_cons.1 hdm with rfl | h
        · exact hign
        · exact hd d h
      obtain ⟨h1, h2⟩ := walkNames_sync config w path entries (path :: dirs) tr hd'
      exact ⟨h1, Or.inl h2⟩
theorem walkNames_sync (config : Config) (w : World) (path : GoString) :
    ∀ (entries : List (GoString × FsNode)) (dirs : List GoString) (tr : Trace),
      (∀ d ∈ dirs, DirectorySync.shouldIgnoreFile config d = false) →
      uploadsOf (walkNames (DirectorySync.initialSyncFn config w) path entries tr).2
          = uploadsOf tr ++ ((fileEntriesNames dirs path entries).filter (eligible config)).map
              (fun e => (e.1, remotePathOf config e.1))
      ∧ (walkNames (DirectorySync.initialSyncFn config w) path entries tr).1 = .nil
  | [], dirs, tr, hd => by
    rw [walkNames, fileEntriesNames]; simp
  | (name, .lstatError e) :: rest, dirs, tr, hd => by
    rw [walkNames, fileEntriesNames, fileEntries]
    obtain ⟨h1, h2⟩ := initialSyncFn_error config w (filepathJoin [path, name]) none e tr
    obtain ⟨h3, h4⟩ := walkNames_sync config w path rest dirs
      (DirectorySync.initialSyncFn config w (filepathJoin [path, name]) none (some e) tr).2 hd
    simp only [h1, ne_eq, not_true_eq_false, false_and, if_false]
    exact ⟨by rw [h3, h2]; simp, h4⟩
  | (name, .file) :: rest, dirs, tr, hd => by
    rw [walkNames, fileEntriesNames]
    obtain ⟨h1, h2⟩ := walk_sync config w (filepathJoin [path, name]) .file dirs tr hd
    have hnil : (walk (DirectorySync.initialSyncFn config w) (filepathJoin [path, name])
        .file tr).1 = .nil := by
      rcases h2 with h | ⟨_, h⟩
      · exact h
      · simp [FsNode.IsDir] at h
    obtain ⟨h3, h4⟩ := walkNames_sync config w path rest dirs
      (walk (DirectorySync.initialSyncFn config w) (filepathJoin [path, name]) .file tr).2 hd
    simp only [hnil, ne_eq, not_true_eq_false, if_false]
    exact ⟨by rw [h3, h1]; simp [List.filter_append], h4⟩
  | (name, .unreadableDir e) :: rest, dirs, tr, hd => by
    rw [walkNames, fileEntriesNames]
    obtain ⟨h1, h2⟩ :=
      walk_sync config w (filepathJoin [path, name]) (.unreadableDir e) dirs tr hd
    obtain ⟨h3, h4⟩ := walkNames_sync config w path rest dirs
      (walk (DirectorySync.initialSyncFn config w) (filepathJoin [path, name])
        (.unreadableDir e) tr).2 hd
    have hcond : ¬ ((walk (DirectorySync.initialSyncFn config w) (filepathJoin [path, name])
        (.unreadableDir e) tr).1 ≠ .nil
        ∧ (walk (DirectorySync.initialSyncFn config w) (filepathJoin [path, name])
        (.unreadableDir e) tr).1 ≠ .SkipDir) := by
      rcases h2 with h | ⟨h, _⟩ <;> simp [h]
    simp only [hcond, if_false]
    exact ⟨by rw [h3, h1]; simp [List.filter_append], h4⟩
  | (name, .dir entries) :: rest, dirs, tr, hd => by
    rw [walkNames, fileEntriesNames]
    obtain ⟨h1, h2⟩ :=
      walk_sync config w (filepathJoin [path, name]) (.dir entries) dirs tr hd
    obtain ⟨h3, h4⟩ := walkNames_sync config w path rest dirs
      (walk (DirectorySync.initialSyncFn config w) (filepathJoin [path, name])
        (.dir entries) tr).2 hd
    have hcond : ¬ ((walk (DirectorySync.initialSyncFn config w) (filepathJoin [path, name])
        (.dir entries) tr).1 ≠ .nil
        ∧ (walk (DirectorySync.initialSyncFn config w) (filepathJoin [path, name])
        (.dir entries) tr).1 ≠ .SkipDir) := by
      rcases h2 with h | ⟨h, _⟩ <;> simp [h]
    simp only [hcond, if_false]
    exact ⟨by rw [h3, h1]; simp [List.filter_append], h4⟩
end

theorem performInitialSync_uploads (config : Config) (w : World) (tr : Trace) :
    uploadsOf (DirectorySync.performInitialSync config w tr).2
        = uploadsOf tr ++ initialUploads config w
    ∧ (DirectorySync.performInitialSync config w tr).1 = none := by
  unfold DirectorySync.performInitialSync filepathWalk initialUploads
  obtain ⟨h1, h2⟩ := walk_sync config w config.LocalDirectory (w.fs config.LocalDirectory) []
    (tr ++ [.Printf .initialSyncStart]) (by simp)
  dsimp only
  rcases h2 with h | ⟨h, _⟩
  · rw [h]
    refine ⟨?_, rfl⟩
    rw [h1, uploadsOf_append]; simp [uploadsOf]
  · rw [h]
    refine ⟨?_, rfl⟩
    rw [h1, uploadsOf_append]; simp [uploadsOf]

/-- C8 (as stated, refuted). With the ignore pattern `b*d`, the file
`/w/build/x.go` is a non-directory entry under the local root `/w` for which
`shouldIgnoreFile` is false, yet the initial sync issues no upload for it: the
walk skips the directory `/w/build`, whose name the pattern matches. -/
theorem initialSync_skips_ignored_dir :
    (go "/w/build/x.go") ∈
        (fileEntries [] (go "/w") (buildWorld.fs (go "/w"))).map Prod.fst
    ∧ DirectorySync.shouldIgnoreFile (configOf "/w" "/srv" ["b*d"]) (go "/w/build/x.go")
        = false
    ∧ DirectorySync.shouldIgnoreFile (configOf "/w" "/srv" ["b*d"]) (go "/w/build") = true
    ∧ uploadsOf (DirectorySync.performInitialSync (configOf "/w" "/srv" ["b*d"])
          buildWorld []).2 = [(go "/w/a.go", go "/srv/a.go")] := by
  refine ⟨by decide, by decide, by decide, by decide⟩

/-- C8 (amended). Each run of `performInitialSync` returns `nil` and issues
an upload, local path to the remote path `getRemotePath` maps it to, for
exactly the non-directory entries under the local root for which
`shouldIgnoreFile` is false on the entry and on every directory on the way
from the local root down to it, in the order of the walk, whatever was
uploaded before; a second run over the same tree issues the same uploads
again. -/
theorem performInitialSync_spec (config : Config) (w : World) (tr : Trace) :
    (DirectorySync.performInitialSync config w tr).1 = none
    ∧ uploadsOf (DirectorySync.performInitialSync config w tr).2
        = uploadsOf tr ++ initialUploads config w
    ∧ uploadsOf (DirectorySync.performInitialSync config w
          (DirectorySync.performInitialSync config w tr).2).2
        = uploadsOf tr ++ initialUploads config w ++ initialUploads config w
    ∧ (∀ l r : GoString, (l, r) ∈ initialUploads config w ↔
        ∃ dirs : List GoString,
          (l, dirs) ∈ fileEntries [] config.LocalDirectory (w.fs config.LocalDirectory)
          ∧ DirectorySync.shouldIgnoreFile config l = false
          ∧ (∀ d ∈ dirs, DirectorySync.shouldIgnoreFile config d = false)
          ∧ r = (DirectorySync.getRemotePath config l tr).1)
    ∧ uploadsOf (DirectorySync.performInitialSync (configOf "/w" "/srv" ["*.tmp"])
          buildWorld []).2
        = [(go "/w/a.go", go "/srv/a.go"), (go "/w/build/x.go", go "/srv/build/x.go")] := by
  obtain ⟨h1, h2⟩ := performInitialSync_uploads config w tr
  obtain ⟨h3, _⟩ := performInitialSync_uploads config w
    (DirectorySync.performInitialSync config w tr).2
  refine ⟨h2, h1, by rw [h3, h1], ?_, by decide⟩
  intro l r
  rw [getRemotePath_fst]
  unfold initialUploads eligible
  simp only [List.mem_map, List.mem_filter, Bool.and_eq_true, Bool.not_eq_true',
    List.all_eq_true, Prod.mk.injEq, Prod.exists]
  constructor
  · rintro ⟨p, dirs, ⟨hmem, hp, hd⟩, rfl, rfl⟩
    exact ⟨dirs, hmem, hp, hd, rfl⟩
  · rintro ⟨dirs, hmem, hp, hd, rfl⟩
    exact ⟨l, dirs, ⟨hmem, hp, hd⟩, rfl, rfl⟩

/-! ## The path mapper -/

theorem takeWhile_elem (seg rest : GoString) (hsep : Separator ∉ seg)
    (hrest : rest = [] ∨ rest.head? = some Separator) :
    (seg ++ rest).takeWhile (· != Separator) = seg
    ∧ (seg ++ rest).dropWhile (· != Separator) = rest := by
  have hall : ∀ c ∈ seg, (c != Separator) = true := by
    intro c hc
    simp only [bne_iff_ne, ne_eq]
    rintro rfl; exact hsep hc
  constructor
  · rw [List.takeWhile_append_of_pos hall]
    rcases hrest with rfl | h
    · simp
    · cases rest with
      | nil => simp
      | cons a r =>
        simp only [List.head?_cons, Option.some.injEq] at h
        subst h
        simp [List.takeWhile_cons]
  · rw [List.dropWhile_append_of_pos hall]
    rcases hrest with rfl | h
    · simp
    · cases rest with
      | nil => simp
      | cons a r =>
        simp only [List.head?_cons, Option.some.injEq] at h
        subst h
        simp [List.dropWhile_cons]

theorem cleanLoop_sep (rooted : Bool) (fuel : Nat) (rest out : GoString) (dd : Nat) :
    cleanLoop rooted (fuel + 1) (Separator :: rest) out dd = cleanLoop rooted fuel rest out dd := by
  rw [cleanLoop]; simp

theorem cleanLoop_name (rooted : Bool) (fuel : Nat) (seg rest out : GoString) (dd : Nat)
    (hseg : isName seg) (hrest : rest = [] ∨ rest.head? = some Separator) :
    cleanLoop rooted (fuel + 1) (seg ++ rest) out dd
      = cleanLoop rooted fuel rest (addSep rooted out ++ seg) dd := by
  obtain ⟨⟨hne, hsep⟩, hdot, hdotdot⟩ := hseg
  obtain ⟨htake, hdrop⟩ := takeWhile_elem seg rest hsep hrest
  cases seg with
  | nil => exact absurd rfl hne
  | cons c s =>
    have hc : c ≠ Separator := fun h => hsep (by rw [h]; exact List.mem_cons_self _ _)
    have hs : Separator ∉ s := fun h => hsep (List.mem_cons_of_mem _ h)
    have h2 : ¬ (c = dot ∧ (s ++ rest = [] ∨ (s ++ rest).head? = some Separator)) := by
      rintro ⟨rfl, h⟩
      cases s with
      | nil => exact hdot rfl
      | cons d s' =>
        rcases h with h | h
        · simp at h
        · simp only [List.cons_append, List.head?_cons, Option.some.injEq] at h
          exact hs (by rw [h]; exact List.mem_cons_self _ _)
    have h3 : ¬ (c = dot ∧ (s ++ rest).head? = some dot
        ∧ ((s ++ rest).tail = [] ∨ (s ++ rest).tail.head? = some Separator)) := by
      rintro ⟨rfl, hd, h⟩
      cases s with
      | nil =>
        rcases hrest with rfl | hr
        · simp at hd
        · simp only [List.nil_append] at hd
          rw [hr] at hd
          exact absurd (Option.some.inj hd) (by decide)
      | cons d s' =>
        simp only [List.cons_append, List.head?_cons, Option.some.injEq] at hd
        subst hd
        cases s' with
        | nil => exact hdotdot rfl
        | cons e s'' =>
          rcases h with h | h
          · simp at h
          · simp only [List.cons_append, List.tail_cons, List.head?_cons,
              Option.some.injEq] at h
            exact hs (by rw [h]; simp)
    rw [List.cons_append, cleanLoop]
    simp only [hc, if_false, h2, h3]
    rw [← List.cons_append, htake, hdrop]
    rfl

theorem joinSegs_cons_cons (s t : GoString) (rest : List GoString) :
    joinSegs (s :: t :: rest) = s ++ Separator :: joinSegs (t :: rest) := rfl

theorem joinSegs_cons (s : GoString) (rest : List GoString) (h : rest ≠ []) :
    joinSegs (s :: rest) = s ++ Separator :: joinSegs rest := by
  cases rest with
  | nil => exact absurd rfl h
  | cons t r => rfl

theorem joinSegs_append (ls segs : List GoString) (hl : ls ≠ []) (hs : segs ≠ []) :
    joinSegs (ls ++ segs) = joinSegs ls ++ Separator :: joinSegs segs := by
  induction ls with
  | nil => exact absurd rfl hl
  | cons l rest ih =>
    cases rest with
    | nil =>
      simp only [List.singleton_append]
      rw [joinSegs_cons l segs hs]; rfl
    | cons m r =>
      have hne : (m :: r) ++ segs ≠ [] := by simp
      rw [List.cons_append, joinSegs_cons l _ hne, ih (by simp), joinSegs_cons_cons]
      simp

theorem joinSegs_length_pos (s : GoString) (rest : List GoString) (hs : s ≠ []) :
    0 < (joinSegs (s :: rest)).length := by
  cases rest with
  | nil => exact List.length_pos.2 hs
  | cons t r => rw [joinSegs_cons_cons]; simp

theorem cleanLoop_nil (rooted : Bool) (fuel : Nat) (out : GoString) (dd : Nat) :
    cleanLoop rooted fuel [] out dd = out := by
  cases fuel <;> rfl

theorem cleanLoop_names (rooted : Bool) (segs : List GoString)
    (hsegs : ∀ s ∈ segs, isName s) :
    ∀ (fuel : Nat) (out : GoString) (dd : Nat), (joinSegs segs).length ≤ fuel →
      cleanLoop rooted fuel (joinSegs segs) out dd = appendSegs rooted out segs := by
  induction segs with
  | nil => intro fuel out dd _; exact cleanLoop_nil _ _ _ _
  | cons s rest ih =>
    intro fuel out dd hfuel
    have hs : isName s := hsegs s (List.mem_cons_self _ _)
    have hrest : ∀ t ∈ rest, isName t := fun t ht => hsegs t (List.mem_cons_of_mem _ ht)
    have hpos : 0 < s.length := List.length_pos.2 hs.1.1
    cases rest with
    | nil =>
      have hj : joinSegs [s] = s := rfl
      rw [hj] at hfuel ⊢
      obtain ⟨f, rfl⟩ : ∃ f, fuel = f + 1 := ⟨fuel - 1, by omega⟩
      have := cleanLoop_name rooted f s [] out dd hs (Or.inl rfl)
      rw [List.append_nil] at this
      rw [this, cleanLoop_nil]
      rfl
    | cons t r =>
      rw [joinSegs_cons_cons] at hfuel ⊢
      simp only [List.length_append, List.length_cons] at hfuel
      obtain ⟨f, rfl⟩ : ∃ f, fuel = f + 1 + 1 := ⟨fuel - 2, by omega⟩
      rw [cleanLoop_name rooted (f + 1) s (Separator :: joinSegs (t :: r)) out dd hs
        (Or.inr rfl), cleanLoop_sep,
        ih hrest f _ dd (by omega)]
      rfl

theorem addSep_long (rooted : Bool) (x : GoString) (h1 : rooted = true → x.length ≠ 1)
    (h0 : rooted = false → x.length ≠ 0) : addSep rooted x = x ++ [Separator] := by
  unfold addSep
  rw [if_pos]
  cases rooted with
  | true => exact Or.inl ⟨rfl, h1 rfl⟩
  | false => exact Or.inr ⟨rfl, h0 rfl⟩

theorem addSep_after (rooted : Bool) (out s : GoString) (hs : s ≠ []) :
    addSep rooted (addSep rooted out ++ s) = addSep rooted out ++ s ++ [Separator] := by
  have hpos : 0 < s.length := List.length_pos.2 hs
  have hlen : (addSep rooted out ++ s).length ≠ 0 := by
    simp only [List.length_append]; omega
  have hlen1 : rooted = true → (addSep rooted out ++ s).length ≠ 1 := by
    intro hr
    simp only [List.length_append]
    unfold addSep
    split
    · simp only [List.length_append, List.length_singleton]; omega
    · next h =>
      have : out.length = 1 := by
        by_contra hne
        exact h (Or.inl ⟨hr, hne⟩)
      omega
  exact addSep_long rooted _ hlen1 (fun _ => hlen)

theorem appendSegs_eq (rooted : Bool) (segs : List GoString) (hsegs : ∀ s ∈ segs, isElem s) :
    ∀ (out s : GoString), isElem s →
      appendSegs rooted out (s :: segs) = addSep rooted out ++ joinSegs (s :: segs) := by
  induction segs with
  | nil => intro out s _; rfl
  | cons t rest ih =>
    intro out s hs
    have ht : isElem t := hsegs t (List.mem_cons_self _ _)
    rw [appendSegs, ih (fun u hu => hsegs u (List.mem_cons_of_mem _ hu)) _ t ht,
      addSep_after rooted out s hs.1, joinSegs_cons_cons]
    simp

theorem filepathClean_absPath (segs : List GoString) (hsegs : ∀ s ∈ segs, isName s) :
    filepathClean (absPath segs) = absPath segs := by
  unfold filepathClean absPath
  simp only [reduceCtorEq, if_false, List.head?_cons, beq_self_eq_true, if_true,
    List.tail_cons, List.length_cons]
  rw [cleanLoop_names true segs hsegs _ _ _ (by omega)]
  cases segs with
  | nil => simp [appendSegs, joinSegs]
  | cons s rest =>
    rw [appendSegs_eq true rest (fun u hu => (hsegs u (List.mem_cons_of_mem _ hu)).1) _ s
      (hsegs s (List.mem_cons_self _ _)).1]
    simp [addSep]


theorem relLoop_nil (fuel : Nat) (targ : GoString) :
    relLoop fuel [] targ = ([], targ) := by
  cases fuel with
  | zero => rfl
  | succ f => rw [relLoop]; simp

theorem relLoop_elem (fuel : Nat) (l brest trest : GoString) (hl : isElem l)
    (hb : brest = [] ∨ brest.head? = some Separator)
    (ht : trest = [] ∨ trest.head? = some Separator) :
    relLoop (fuel + 1) (l ++ brest) (l ++ trest) = relLoop fuel (brest.drop 1) (trest.drop 1) := by
  obtain ⟨hb1, _⟩ := takeWhile_elem l brest hl.2 hb
  obtain ⟨ht1, _⟩ := takeWhile_elem l trest hl.2 ht
  have hne1 : l ++ brest ≠ [] := by simp [hl.1]
  have hne2 : l ++ trest ≠ [] := by simp [hl.1]
  rw [relLoop]
  simp only [hne1, hne2, or_self, if_false, hb1, ht1, ne_eq, not_true_eq_false]
  congr 1
  · rw [List.drop_append_eq_append_drop]
    have : l.length + 1 - l.length = 1 := by omega
    rw [this, List.drop_of_length_le (by omega), List.nil_append]
  · rw [List.drop_append_eq_append_drop]
    have : l.length + 1 - l.length = 1 := by omega
    rw [this, List.drop_of_length_le (by omega), List.nil_append]

theorem relLoop_elems (ls : List GoString) (hls : ∀ l ∈ ls, isElem l) (hne : ls ≠ [])
    (rel : GoString) :
    ∀ fuel, (joinSegs ls).length ≤ fuel →
      relLoop fuel (joinSegs ls) (joinSegs ls ++ Separator :: rel) = ([], rel) := by
  induction ls with
  | nil => exact absurd rfl hne
  | cons l rest ih =>
    intro fuel hfuel
    have hl : isElem l := hls l (List.mem_cons_self _ _)
    have hpos : 0 < l.length := List.length_pos.2 hl.1
    cases rest with
    | nil =>
      have hj : joinSegs [l] = l := rfl
      rw [hj] at hfuel ⊢
      obtain ⟨f, rfl⟩ : ∃ f, fuel = f + 1 := ⟨fuel - 1, by omega⟩
      have := relLoop_elem f l [] (Separator :: rel) hl (Or.inl rfl) (Or.inr rfl)
      rw [List.append_nil] at this
      rw [this]
      simp [relLoop_nil]
    | cons m r =>
      rw [joinSegs_cons_cons] at hfuel ⊢
      simp only [List.length_append, List.length_cons] at hfuel
      obtain ⟨f, rfl⟩ : ∃ f, fuel = f + 1 := ⟨fuel - 1, by omega⟩
      rw [List.append_assoc]
      rw [relLoop_elem f l (Separator :: joinSegs (m :: r))
        (Separator :: joinSegs (m :: r) ++ Separator :: rel) hl (Or.inr rfl) (Or.inr rfl)]
      simp only [List.cons_append, List.drop_succ_cons, List.drop_zero]
      exact ih (fun u hu => hls u (List.mem_cons_of_mem _ hu)) (by simp) f (by omega)

theorem joinSegs_head (s : GoString) (rest : List GoString) (hs : isElem s) :
    ∃ c t, joinSegs (s :: rest) = c :: t ∧ c ≠ Separator := by
  obtain ⟨hne, hsep⟩ := hs
  cases s with
  | nil => exact absurd rfl hne
  | cons c s' =>
    have hc : c ≠ Separator := fun h => hsep (by rw [h]; exact List.mem_cons_self _ _)
    cases rest with
    | nil => exact ⟨c, s', rfl, hc⟩
    | cons t r => exact ⟨c, s' ++ Separator :: joinSegs (t :: r), rfl, hc⟩

theorem joinSegs_ne_nil (segs : List GoString) (hsegs : ∀ s ∈ segs, isElem s)
    (hne : segs ≠ []) : joinSegs segs ≠ [] := by
  obtain ⟨s, rest, rfl⟩ := List.exists_cons_of_ne_nil hne
  obtain ⟨c, t, h, _⟩ := joinSegs_head s rest (hsegs s (List.mem_cons_self _ _))
  rw [h]; simp

theorem filepathRel_of_loop (L P rel : GoString)
    (hne : filepathClean P ≠ filepathClean L) (hdot : filepathClean L ≠ [dot])
    (hhead : (filepathClean L).head? = (filepathClean P).head?)
    (hPdot : filepathClean P ≠ [dot])
    (hloop : relLoop (filepathClean L).length (filepathClean L) (filepathClean P)
      = ([], rel)) :
    filepathRel L P = .ok rel := by
  unfold filepathRel
  simp only [hne, if_false, hdot, hPdot, hhead, ne_eq, not_true_eq_false, hloop]
  simp

theorem filepathRel_abs (L P : GoString) (ls segs : List GoString)
    (hls : ∀ l ∈ ls, isElem l) (hsegs : ∀ s ∈ segs, isElem s) (hne : segs ≠ [])
    (hL : filepathClean L = absPath ls) (hP : filepathClean P = absPath (ls ++ segs)) :
    filepathRel L P = .ok (joinSegs segs) := by
  have hj := joinSegs_ne_nil segs hsegs hne
  apply filepathRel_of_loop
  · rw [hL, hP]
    cases ls with
    | nil =>
      simp only [absPath, List.nil_append, joinSegs, ne_eq, List.cons.injEq, true_and]
      exact hj
    | cons l rest =>
      rw [absPath, absPath, joinSegs_append _ _ (by simp) hne]
      intro h
      have := congrArg List.length h
      simp at this
  · rw [hL]; simp [absPath, dot, Separator]
  · rw [hL, hP]; rfl
  · rw [hP]; simp [absPath, dot, Separator]
  · rw [hL, hP]
    cases ls with
    | nil =>
      simp only [absPath, List.nil_append, joinSegs, List.length_cons, List.length_nil]
      rw [relLoop]
      simp [List.takeWhile_cons, relLoop_nil]
    | cons l rest =>
      rw [absPath, absPath, joinSegs_append _ _ (by simp) hne, List.length_cons, relLoop]
      simp only [reduceCtorEq, or_self, if_false, List.takeWhile_cons, bne_self_eq_false,
        Bool.false_eq_true, ne_eq, not_true_eq_false, List.length_nil, Nat.zero_add,
        List.drop_succ_cons, List.drop_zero]
      exact relLoop_elems (l :: rest) hls (by simp) _ _ (Nat.le_refl _)

theorem filepathRel_relative (L P : GoString) (ls segs : List GoString)
    (hls : ∀ l ∈ ls, isElem l) (hlne : ls ≠ [])
    (hne : segs ≠ []) (hdot : filepathClean L ≠ [dot])
    (hL : filepathClean L = joinSegs ls) (hP : filepathClean P = joinSegs (ls ++ segs)) :
    filepathRel L P = .ok (joinSegs segs) := by
  apply filepathRel_of_loop _ _ _ _ hdot
  · rw [hL, hP, joinSegs_append _ _ hlne hne]
    obtain ⟨l, rest, rfl⟩ := List.exists_cons_of_ne_nil hlne
    obtain ⟨c, t, h, _⟩ := joinSegs_head l rest (hls l (List.mem_cons_self _ _))
    rw [h]; rfl
  · rw [hP, joinSegs_append _ _ hlne hne]
    obtain ⟨l, rest, rfl⟩ := List.exists_cons_of_ne_nil hlne
    have hpos := joinSegs_length_pos l rest (hls l (List.mem_cons_self _ _)).1
    intro h
    have := congrArg List.length h
    simp only [List.length_append, List.length_cons, List.length_nil] at this
    omega
  · rw [hL, hP, joinSegs_append _ _ hlne hne]
    exact relLoop_elems ls hls hlne _ _ (Nat.le_refl _)
  · rw [hL, hP, joinSegs_append _ _ hlne hne]
    intro h
    have := congrArg List.length h
    simp at this

theorem filepathRel_dot (L P : GoString) (segs : List GoString)
    (hsegs : ∀ s ∈ segs, isName s) (hne : segs ≠ [])
    (hL : filepathClean L = [dot]) (hP : filepathClean P = joinSegs segs) :
    filepathRel L P = .ok (joinSegs segs) := by
  obtain ⟨s, rest, rfl⟩ := List.exists_cons_of_ne_nil hne
  have hs := hsegs s (List.mem_cons_self _ _)
  obtain ⟨c, t, h, hc⟩ := joinSegs_head s rest hs.1
  have hnd : joinSegs (s :: rest) ≠ [dot] := by
    cases rest with
    | nil => exact hs.2.1
    | cons u r =>
      rw [joinSegs_cons_cons]
      intro heq
      have := congrArg List.length heq
      have hpos : 0 < s.length := List.length_pos.2 hs.1.1
      simp at this
      omega
  unfold filepathRel
  rw [hL, hP]
  simp only [hnd, if_false, if_true, List.head?_nil, List.length_nil, relLoop]
  rw [h]
  have : ¬ (c = Separator) := hc
  simp [this]


theorem filepathJoin_two (R rel : GoString) (hR : R ≠ []) :
    filepathJoin [R, rel] = filepathClean (R ++ Separator :: rel) := by
  unfold filepathJoin
  have h : ([R, rel].dropWhile (· == [])) = [R, rel] := by
    rw [List.dropWhile_cons]
    have : (R == []) = false := by simpa using hR
    rw [this]
    rfl
  rw [h]
  simp [List.intercalate, List.intersperse]

theorem filepathJoin_absPath (rs segs : List GoString) (hrs : ∀ r ∈ rs, isName r)
    (hsegs : ∀ s ∈ segs, isName s) (hne : segs ≠ []) :
    filepathJoin [absPath rs, joinSegs segs] = absPath (rs ++ segs) := by
  rw [filepathJoin_two _ _ (by simp [absPath])]
  cases rs with
  | nil =>
    obtain ⟨s, rest, rfl⟩ := List.exists_cons_of_ne_nil hne
    unfold filepathClean
    simp only [absPath, joinSegs, List.nil_append, List.cons_append, reduceCtorEq, if_false,
      List.head?_cons, beq_self_eq_true, if_true, List.tail_cons, List.length_cons]
    rw [cleanLoop_sep, cleanLoop_names true (s :: rest) hsegs _ _ _ (by omega),
      appendSegs_eq true rest (fun u hu => (hsegs u (List.mem_cons_of_mem _ hu)).1) _ s
        (hsegs s (List.mem_cons_self _ _)).1]
    simp [addSep]
  | cons r rest =>
    have h : absPath (r :: rest) ++ Separator :: joinSegs segs
        = absPath ((r :: rest) ++ segs) := by
      rw [absPath, absPath, joinSegs_append _ _ (by simp) hne]; rfl
    rw [h]
    apply filepathClean_absPath
    intro u hu
    rcases List.mem_append.1 hu with h1 | h1
    · exact hrs u h1
    · exact hsegs u h1

theorem replaceBackslash_no_backslash (s : GoString) : ∀ c ∈ replaceBackslash s, c ≠ backslash := by
  intro c hc
  unfold replaceBackslash at hc
  obtain ⟨a, _, rfl⟩ := List.mem_map.1 hc
  split
  · decide
  · next h => exact h

theorem replaceBackslash_id (s : GoString) (h : backslash ∉ s) : replaceBackslash s = s := by
  unfold replaceBackslash
  conv_rhs => rw [← List.map_id s]
  apply List.map_congr_left
  intro a ha
  have : a ≠ backslash := fun e => h (e ▸ ha)
  simp [this]

theorem filepathRel_under (L P : GoString) (segs : List GoString)
    (hunder : liesUnder L P segs) : filepathRel L P = .ok (joinSegs segs) := by
  obtain ⟨hne, hsegs, ls, hls, h | h | h⟩ := hunder
  · exact filepathRel_abs L P ls segs hls (fun s hs => (hsegs s hs).1) hne h.1 h.2
  · exact filepathRel_relative L P ls segs hls h.1 hne h.2.2.1 h.2.1 h.2.2.2
  · exact filepathRel_dot L P segs hsegs hne h.1 h.2

theorem replaceBackslash_eq_iff (s : GoString) : replaceBackslash s = s ↔ backslash ∉ s := by
  constructor
  · intro h hmem
    exact replaceBackslash_no_backslash s backslash (by rw [h]; exact hmem) rfl
  · exact replaceBackslash_id s

/-- C2 (as stated, refuted). With local root `/home/u/proj` and remote root
`/srv/proj`, the file named `a\b.go` in the local root lies under the root;
its relative path is the one name `a\b.go`, and that joined onto the remote
root is `/srv/proj/a\b.go`. `getRemotePath` returns `/srv/proj/a/b.go`
instead, which is also what it returns for the file `b.go` in the directory
`a`. -/
theorem getRemotePath_backslash_name :
    liesUnder (configOf "/home/u/proj" "/srv/proj" []).LocalDirectory backslashPath
        [backslashName]
    ∧ filepathRel (go "/home/u/proj") backslashPath = .ok backslashName
    ∧ filepathJoin [go "/srv/proj", backslashName] = go "/srv/proj/" ++ backslashName
    ∧ (DirectorySync.getRemotePath (configOf "/home/u/proj" "/srv/proj" [])
        backslashPath []).1 = go "/srv/proj/a/b.go"
    ∧ (DirectorySync.getRemotePath (configOf "/home/u/proj" "/srv/proj" [])
        backslashPath []).1 ≠ filepathJoin [go "/srv/proj", backslashName]
    ∧ (DirectorySync.getRemotePath (configOf "/home/u/proj" "/srv/proj" [])
        (go "/home/u/proj/a/b.go") []).1 = go "/srv/proj/a/b.go" :=
  ⟨⟨by decide, by decide, [go "home", go "u", go "proj"], by decide,
      Or.inl ⟨by decide, by decide⟩⟩,
    rfl, by decide, by decide, by decide, by decide⟩

/-- C2 (amended). For a local path lying under the local root, `segs` the
names leading from the root down to it, `getRemotePath` returns the relative
path `segs` joined onto the remote root (`filepath.Join`) with every backslash
replaced by a forward slash, and logs nothing; the result contains no
backslash, and it is the joined path itself exactly when the joined path has
no backslash. For a remote root given in clean rooted form `/r1/../rn` the
joined path is `/r1/../rn/segs`. -/
theorem getRemotePath_under_root (config : Config) (P : GoString) (segs : List GoString)
    (tr : Trace) (hunder : liesUnder config.LocalDirectory P segs) :
    (DirectorySync.getRemotePath config P tr).1
        = replaceBackslash (filepathJoin [config.RemoteDirectory, joinSegs segs])
    ∧ (DirectorySync.getRemotePath config P tr).2 = tr
    ∧ (∀ c ∈ (DirectorySync.getRemotePath config P tr).1, c ≠ backslash)
    ∧ ((DirectorySync.getRemotePath config P tr).1
          = filepathJoin [config.RemoteDirectory, joinSegs segs]
        ↔ backslash ∉ filepathJoin [config.RemoteDirectory, joinSegs segs])
    ∧ (∀ rs : List GoString, (∀ r ∈ rs, isName r) → config.RemoteDirectory = absPath rs →
        filepathJoin [config.RemoteDirectory, joinSegs segs] = absPath (rs ++ segs)
        ∧ (DirectorySync.getRemotePath config P tr).1 = replaceBackslash (absPath (rs ++ segs))
        ∧ ((DirectorySync.getRemotePath config P tr).1 = absPath (rs ++ segs)
            ↔ backslash ∉ absPath (rs ++ segs))) := by
  have hrel := filepathRel_under _ _ _ hunder
  have hval : DirectorySync.getRemotePath config P tr
      = (replaceBackslash (filepathJoin [config.RemoteDirectory, joinSegs segs]), tr) := by
    unfold DirectorySync.getRemotePath
    rw [hrel]
  rw [hval]
  refine ⟨rfl, rfl, replaceBackslash_no_backslash _, replaceBackslash_eq_iff _, ?_⟩
  intro rs hrs hR
  have hj : filepathJoin [config.RemoteDirectory, joinSegs segs] = absPath (rs ++ segs) := by
    rw [hR]; exact filepathJoin_absPath rs segs hrs hunder.2.1 hunder.1
  refine ⟨hj, ?_⟩
  show replaceBackslash (filepathJoin [config.RemoteDirectory, joinSegs segs]) = _ ∧ _
  rw [hj]
  exact ⟨rfl, replaceBackslash_eq_iff _⟩

theorem getRemotePath_under_root_witness :
    liesUnder (configOf "/home/u/proj" "/srv/proj" []).LocalDirectory
        (go "/home/u/proj/src/a.go") [go "src", go "a.go"]
    ∧ (DirectorySync.getRemotePath (configOf "/home/u/proj" "/srv/proj" [])
        (go "/home/u/proj/src/a.go") []).1 = go "/srv/proj/src/a.go" := by
  have hunder : liesUnder (configOf "/home/u/proj" "/srv/proj" []).LocalDirectory
      (go "/home/u/proj/src/a.go") [go "src", go "a.go"] :=
    ⟨by decide, by decide, [go "home", go "u", go "proj"], by decide,
      Or.inl ⟨by decide, by decide⟩⟩
  obtain ⟨_, _, _, _, h⟩ := getRemotePath_under_root (configOf "/home/u/proj" "/srv/proj" [])
    (go "/home/u/proj/src/a.go") [go "src", go "a.go"] [] hunder
  refine ⟨hunder, ?_⟩
  rw [(h [go "srv", go "proj"] (by decide) (by decide)).2.1]
  decide



theorem backtrackLoop_ge (out : GoString) (dd : Nat) :
    ∀ w, dd ≤ w → dd ≤ backtrackLoop out dd w := by
  intro w
  induction w with
  | zero => intro h; simpa [backtrackLoop] using h
  | succ w ih =>
    intro h
    rw [backtrackLoop]
    split
    · next hc => exact ih (by omega)
    · exact h

theorem head?_take_pos (out : GoString) (n : Nat) (hn : 1 ≤ n) :
    (out.take n).head? = out.head? := by
  cases out with
  | nil => simp
  | cons a t =>
    obtain ⟨m, rfl⟩ : ∃ m, n = m + 1 := ⟨n - 1, by omega⟩
    simp

theorem head?_take_ne (out : GoString) (n : Nat) (h : out.head? ≠ some Separator) :
    (out.take n).head? ≠ some Separator := by
  cases n with
  | zero => simp
  | succ m => rw [head?_take_pos out (m + 1) (by omega)]; exact h

theorem head?_append_of_head (out x : GoString) (c : UInt8) (h : out.head? = some c) :
    (out ++ x).head? = some c := by
  cases out with
  | nil => simp at h
  | cons a t => simpa using h

theorem cleanLoop_rooted_head :
    ∀ (fuel : Nat) (path out : GoString), out.head? = some Separator →
      (cleanLoop true fuel path out 1).head? = some Separator := by
  intro fuel
  induction fuel with
  | zero => intro path out h; exact h
  | succ f ih =>
    intro path out h
    cases path with
    | nil => exact h
    | cons c rest =>
      rw [cleanLoop]
      dsimp only
      split
      · exact ih _ _ h
      · split
        · exact ih _ _ h
        · split
          · split
            · next hlen =>
              apply ih
              rw [head?_take_pos _ _ (backtrackLoop_ge out 1 _ (by omega))]
              exact h
            · split
              · next hr => exact absurd hr (by decide)
              · exact ih _ _ h
          · apply ih
            apply head?_append_of_head
            split
            · exact head?_append_of_head _ _ _ h
            · exact h

theorem cleanLoop_unrooted_head :
    ∀ (fuel : Nat) (path out : GoString) (dd : Nat), out.head? ≠ some Separator →
      (cleanLoop false fuel path out dd).head? ≠ some Separator := by
  intro fuel
  induction fuel with
  | zero => intro path out dd h; exact h
  | succ f ih =>
    intro path out dd h
    cases path with
    | nil => exact h
    | cons c rest =>
      rw [cleanLoop]
      dsimp only
      split
      · exact ih _ _ _ h
      · next hc =>
        split
        · exact ih _ _ _ h
        · split
          · split
            · exact ih _ _ _ (head?_take_ne _ _ h)
            · split
              · apply ih
                cases out with
                | nil => simp [dot, Separator]
                | cons a t => simpa using h
              · exact ih _ _ _ h
          · apply ih
            cases out with
            | nil =>
              have : (c != Separator) = true := by simpa using hc
              simp [List.takeWhile_cons, this, hc]
            | cons a t => simpa using h

theorem filepathClean_head (path : GoString) :
    (filepathClean path).head? = some Separator ↔ path.head? = some Separator := by
  unfold filepathClean
  split
  · next h => subst h; simp [dot, Separator]
  · next hne =>
    dsimp only
    by_cases hr : path.head? = some Separator
    · have hb : (path.head? == some Separator) = true := by simp [hr]
      rw [hb]
      simp only [if_true, hr, iff_true]
      have := cleanLoop_rooted_head path.length path.tail [Separator] rfl
      split
      · next h0 => rw [h0] at this; simp at this
      · exact this
    · have hb : (path.head? == some Separator) = false := by simpa using hr
      rw [hb]
      simp only [Bool.false_eq_true, if_false, hr, iff_false]
      have := cleanLoop_unrooted_head path.length path [] 0 (by simp)
      split
      · simp [dot, Separator]
      · exact this

theorem filepathRel_mixed (L P : GoString)
    (hmix : ¬ (L.head? = some Separator ↔ P.head? = some Separator)) :
    filepathRel L P = .error .relError := by
  have hL := filepathClean_head L
  have hP := filepathClean_head P
  have hne : filepathClean P ≠ filepathClean L := by
    intro h
    rw [h] at hP
    exact hmix (hL.symm.trans hP)
  unfold filepathRel
  simp only [hne, if_false]
  have hbase : ((if filepathClean L = [dot] then [] else filepathClean L).head?
      == some Separator) = decide (L.head? = some Separator) := by
    split
    · next hd =>
      have : ¬ L.head? = some Separator := by
        rw [← hL, hd]; simp [dot, Separator]
      simp [this]
    · by_cases h : L.head? = some Separator
      · simp [h, hL.2 h]
      · have : ¬ (filepathClean L).head? = some Separator := fun h' => h (hL.1 h')
        simp [h, this]
  have htarg : ((if filepathClean P = [dot] then [] else filepathClean P).head?
      == some Separator) = decide (P.head? = some Separator) := by
    split
    · next hd =>
      have : ¬ P.head? = some Separator := by
        rw [← hP, hd]; simp [dot, Separator]
      simp [this]
    · by_cases h : P.head? = some Separator
      · simp [h, hP.2 h]
      · have : ¬ (filepathClean P).head? = some Separator := fun h' => h (hP.1 h')
        simp [h, this]
  rw [hbase, htarg]
  have : decide (L.head? = some Separator) ≠ decide (P.head? = some Separator) := by
    intro h
    apply hmix
    constructor
    · intro hl; have := h ▸ (decide_eq_true hl); exact of_decide_eq_true this
    · intro hp; have := h.symm ▸ (decide_eq_true hp); exact of_decide_eq_true this
  simp only [ne_eq, this, not_false_eq_true, if_true]

/-- C3 (as stated, refuted). With local root `/home/u/proj` and remote root
`/srv/proj`, the local path `/home/u/other/a.go` is not under the local root
(the clean root is no prefix of the clean path), yet `getRemotePath` does not
fail: `filepath.Rel` relates the two through `..`, nothing is logged, and the
result `/srv/other/a.go` lies outside the remote root. -/
theorem getRemotePath_outside_root :
    ¬ (filepathClean (go "/home/u/proj") <+: filepathClean (go "/home/u/other/a.go"))
    ∧ filepathRel (go "/home/u/proj") (go "/home/u/other/a.go") = .ok (go "../other/a.go")
    ∧ DirectorySync.getRemotePath (configOf "/home/u/proj" "/srv/proj" [])
        (go "/home/u/other/a.go") [] = (go "/srv/other/a.go", [])
    ∧ ¬ (go "/srv/proj" <+: go "/srv/other/a.go") := by
  refine ⟨by decide, by rfl, by decide, by decide⟩

/-- C3 (amended). When exactly one of the local root and the local path is
rooted, `filepath.Rel` fails and `getRemotePath` returns the empty result and
logs the failure; in general `getRemotePath` returns the empty result with a
log line when `filepath.Rel` fails, and otherwise the relative path
`filepath.Rel` computed, which may start with `..`, joined onto the remote
root. -/
theorem getRemotePath_fails_on_mixed_roots (config : Config) (P : GoString) (tr : Trace)
    (hmix : ¬ (config.LocalDirectory.head? = some Separator ↔ P.head? = some Separator)) :
    DirectorySync.getRemotePath config P tr = ([], tr ++ [.Printf (.relFailed .relError)])
    ∧ (∀ (Q : GoString) (e : GoError), filepathRel config.LocalDirectory Q = .error e →
        DirectorySync.getRemotePath config Q tr = ([], tr ++ [.Printf (.relFailed e)]))
    ∧ (∀ (Q rel : GoString), filepathRel config.LocalDirectory Q = .ok rel →
        DirectorySync.getRemotePath config Q tr
          = (replaceBackslash (filepathJoin [config.RemoteDirectory, rel]), tr)) := by
  refine ⟨?_, ?_, ?_⟩
  · unfold DirectorySync.getRemotePath
    rw [filepathRel_mixed _ _ hmix]
  · intro Q e h
    unfold DirectorySync.getRemotePath
    rw [h]
  · intro Q rel h
    unfold DirectorySync.getRemotePath
    rw [h]

theorem getRemotePath_fails_on_mixed_roots_witness :
    ¬ ((configOf "/home/u/proj" "/srv/proj" []).LocalDirectory.head? = some Separator
        ↔ (go "home/u/other/a.go").head? = some Separator)
    ∧ DirectorySync.getRemotePath (configOf "/home/u/proj" "/srv/proj" [])
        (go "home/u/other/a.go") [] = ([], [.Printf (.relFailed .relError)]) :=
  ⟨by decide,
   (getRemotePath_fails_on_mixed_roots (configOf "/home/u/proj" "/srv/proj" [])
      (go "home/u/other/a.go") [] (by decide)).1⟩

/-! ## Debouncing -/

theorem mem_mapDelete (m : List (GoString × Nat)) (p q : GoString) (id : Nat) :
    (q, id) ∈ mapDelete m p ↔ (q, id) ∈ m ∧ q ≠ p := by
  simp [mapDelete, List.mem_filter]

theorem mapLookup_none (m : List (GoString × Nat)) (p : GoString) :
    mapLookup m p = none ↔ ∀ id, (p, id) ∉ m := by
  unfold mapLookup
  simp only [Option.map_eq_none', List.find?_eq_none, decide_eq_true_eq]
  constructor
  · intro h id hmem; exact h (p, id) hmem rfl
  · rintro h ⟨q, id⟩ hmem heq
    simp only at heq
    subst heq
    exact h id hmem

theorem mapLookup_some (m : List (GoString × Nat)) (p : GoString) (id : Nat)
    (h : mapLookup m p = some id) : (p, id) ∈ m := by
  unfold mapLookup at h
  simp only [Option.map_eq_some'] at h
  obtain ⟨⟨q, i⟩, hfind, rfl⟩ := h
  have hmem := List.mem_of_find?_eq_some hfind
  have hq := List.find?_some hfind
  simp only [decide_eq_true_eq] at hq
  subst hq
  exact hmem

theorem mem_stopTimer (timers : List Timer) (id : Nat) (t : Timer) :
    t ∈ stopTimer timers id ↔ t ∈ timers ∧ t.id ≠ id := by
  simp [stopTimer, List.mem_filter]

theorem lastTime_cons_self (hist : List (Nat × GoString)) (t : Nat) (p : GoString) :
    lastTime ((t, p) :: hist) p = some t := by
  simp [lastTime]

theorem lastTime_cons_ne (hist : List (Nat × GoString)) (t : Nat) (p q : GoString)
    (h : q ≠ p) : lastTime ((t, p) :: hist) q = lastTime hist q := by
  unfold lastTime
  rw [List.find?_cons_of_neg]
  simpa using fun e => h e.symm

theorem nodup_length_le_dedup (l m : List GoString) (hl : l.Nodup) (hsub : ∀ x ∈ l, x ∈ m) :
    l.length ≤ m.dedup.length := by
  have hsub' : l ⊆ m.dedup := fun x hx => List.mem_dedup.2 (hsub x hx)
  exact (List.subperm_of_subset hl hsub').length_le

theorem debounceInv_event (interval : Nat) (allPaths : List GoString)
    (hist : List (Nat × GoString)) (now t : Nat) (p : GoString) (fw fw' : FileWatcher)
    (kept : List Timer)
    (inv : DebounceInv interval allPaths hist now fw)
    (hsub : List.Sublist kept fw.live)
    (hkept : ∀ x, x ∈ kept ↔ x ∈ fw.live ∧ x.filePath ≠ p)
    (hp : p ∈ allPaths) (hnow : now ≤ t)
    (hspaced : ∀ t0, lastTime hist p = some t0 → t < t0 + interval)
    (htimers : fw'.live = kept ++ [⟨fw.nextTimer, p, t + interval⟩])
    (hfired : fw'.fired = fw.fired)
    (hmap : fw'.debounceMap = mapStore fw.debounceMap p fw.nextTimer)
    (hnext : fw'.nextTimer = fw.nextTimer + 1)
    (hqueue : fw'.changeQueue = fw.changeQueue)
    (hclosed : fw'.queueClosed = fw.queueClosed)
    (hpan : fw'.panicked = fw.panicked) :
    DebounceInv interval allPaths ((t, p) :: hist) t fw' := by
  have hpq : p ∉ fw.changeQueue := by
    intro hmem
    obtain ⟨_, t0, h0, hle⟩ := inv.settled p hmem
    have := hspaced t0 h0
    omega
  constructor
  · rw [hclosed]; exact inv.isOpen
  · rw [hpan]; exact inv.alive
  · intro x hx
    rw [htimers] at hx
    rw [hnext]
    rcases List.mem_append.1 hx with h | h
    · have := inv.fresh x ((hkept x).1 h).1; omega
    · simp only [List.mem_singleton] at h; subst h; simp
  · rw [htimers, List.map_append, List.nodup_append]
    refine ⟨(hsub.map _).nodup inv.ids, by simp, ?_⟩
    intro a ha hb
    simp only [List.map_cons, List.map_nil, List.mem_singleton] at hb
    obtain ⟨x, hx, rfl⟩ := List.mem_map.1 ha
    have := inv.fresh x ((hkept x).1 hx).1
    omega
  · rw [htimers, List.map_append, List.nodup_append]
    refine ⟨(hsub.map _).nodup inv.paths, by simp, ?_⟩
    intro a ha hb
    simp only [List.map_cons, List.map_nil, List.mem_singleton] at hb
    obtain ⟨x, hx, rfl⟩ := List.mem_map.1 ha
    exact ((hkept x).1 hx).2 hb
  · rw [hmap, mapStore, List.map_append, List.nodup_append]
    refine ⟨((List.filter_sublist _).map _).nodup inv.keys, by simp, ?_⟩
    intro a ha hb
    simp only [List.map_cons, List.map_nil, List.mem_singleton] at hb
    obtain ⟨⟨q, i⟩, hx, rfl⟩ := List.mem_map.1 ha
    exact ((mem_mapDelete _ _ _ _).1 hx).2 hb
  · intro q id
    rw [hmap, htimers, mapStore, List.mem_append, mem_mapDelete, inv.mapTimers]
    simp only [List.mem_singleton, Prod.mk.injEq, List.mem_append]
    constructor
    · rintro (⟨⟨x, hx, hxp, hxi⟩, hne⟩ | ⟨rfl, rfl⟩)
      · exact ⟨x, Or.inl ((hkept x).2 ⟨hx, by rw [hxp]; exact hne⟩), hxp, hxi⟩
      · exact ⟨_, Or.inr rfl, rfl, rfl⟩
    · rintro ⟨x, hx | hx, hxp, hxi⟩
      · have := (hkept x).1 hx
        exact Or.inl ⟨⟨x, this.1, hxp, hxi⟩, by rw [← hxp]; exact this.2⟩
      · subst hx
        exact Or.inr ⟨hxp.symm, hxi.symm⟩
  · intro x hx
    rw [htimers] at hx
    rcases List.mem_append.1 hx with h | h
    · have hk := (hkept x).1 h
      obtain ⟨t0, h0, hd⟩ := inv.due x hk.1
      exact ⟨t0, by rw [lastTime_cons_ne _ _ _ _ hk.2]; exact h0, hd⟩
    · simp only [List.mem_singleton] at h
      subst h
      exact ⟨t, lastTime_cons_self _ _ _, rfl⟩
  · intro x hx
    rw [hfired] at hx
    have := inv.elapsed x hx
    omega
  · rw [hqueue]; exact inv.queueNodup
  · intro q hq
    rw [hqueue] at hq
    have hne : q ≠ p := fun e => hpq (e ▸ hq)
    obtain ⟨hno, t0, h0, hle⟩ := inv.settled q hq
    refine ⟨?_, t0, by rw [lastTime_cons_ne _ _ _ _ hne]; exact h0, by omega⟩
    intro x hx
    rw [htimers] at hx
    rcases List.mem_append.1 hx with h | h
    · exact hno x ((hkept x).1 h).1
    · simp only [List.mem_singleton] at h
      subst h
      exact fun e => hne e.symm
  · intro q
    rw [hqueue, htimers]
    simp only [List.map_cons, List.mem_cons, List.mem_append, List.not_mem_nil, or_false]
    constructor
    · rintro (rfl | h)
      · exact Or.inr ⟨_, Or.inr rfl, rfl⟩
      · rcases (inv.seen q).1 h with h1 | ⟨x, hx, hxp⟩
        · exact Or.inl h1
        · by_cases hqp : q = p
          · subst hqp; exact Or.inr ⟨_, Or.inr rfl, rfl⟩
          · exact Or.inr ⟨x, Or.inl ((hkept x).2 ⟨hx, by rw [hxp]; exact hqp⟩), hxp⟩
    · rintro (h | ⟨x, hx | hx, hxp⟩)
      · exact Or.inr ((inv.seen q).2 (Or.inl h))
      · exact Or.inr ((inv.seen q).2 (Or.inr ⟨x, ((hkept x).1 hx).1, hxp⟩))
      · subst hx; exact Or.inl hxp.symm
  · intro q hq
    simp only [List.map_cons, List.mem_cons] at hq
    rcases hq with rfl | h
    · exact hp
    · exact inv.within q h

theorem debounceInv_closure (interval : Nat) (allPaths : List GoString)
    (hist : List (Nat × GoString)) (now t : Nat) (fw fw' : FileWatcher) (τ : Timer)
    (kept : List Timer)
    (inv : DebounceInv interval allPaths hist now fw)
    (hτ : τ ∈ fw.live) (hdue : τ.deadline ≤ t) (hnow : now ≤ t)
    (hsub : List.Sublist kept fw.live)
    (hkept : ∀ x, x ∈ kept ↔ x ∈ fw.live ∧ x.filePath ≠ τ.filePath)
    (htimers : fw'.live = kept)
    (hfired : ∀ x ∈ fw'.fired, x ∈ fw.fired)
    (hmap : fw'.debounceMap = mapDelete fw.debounceMap τ.filePath)
    (hnext : fw'.nextTimer = fw.nextTimer)
    (hqueue : fw'.changeQueue = fw.changeQueue ++ [τ.filePath])
    (hclosed : fw'.queueClosed = fw.queueClosed)
    (hpan : fw'.panicked = fw.panicked) :
    DebounceInv interval allPaths hist t fw' := by
  have hpq : τ.filePath ∉ fw.changeQueue := fun hmem => (inv.settled _ hmem).1 τ hτ rfl
  constructor
  · rw [hclosed]; exact inv.isOpen
  · rw [hpan]; exact inv.alive
  · intro x hx
    rw [htimers] at hx
    rw [hnext]
    exact inv.fresh x ((hkept x).1 hx).1
  · rw [htimers]; exact (hsub.map _).nodup inv.ids
  · rw [htimers]; exact (hsub.map _).nodup inv.paths
  · rw [hmap, mapDelete]; exact ((List.filter_sublist _).map _).nodup inv.keys
  · intro q id
    rw [hmap, htimers, mem_mapDelete, inv.mapTimers]
    constructor
    · rintro ⟨⟨x, hx, hxp, hxi⟩, hne⟩
      exact ⟨x, (hkept x).2 ⟨hx, by rw [hxp]; exact hne⟩, hxp, hxi⟩
    · rintro ⟨x, hx, hxp, hxi⟩
      have := (hkept x).1 hx
      exact ⟨⟨x, this.1, hxp, hxi⟩, by rw [← hxp]; exact this.2⟩
  · intro x hx
    rw [htimers] at hx
    exact inv.due x ((hkept x).1 hx).1
  · intro x hx
    have := inv.elapsed x (hfired x hx)
    omega
  · rw [hqueue, List.nodup_append]
    refine ⟨inv.queueNodup, by simp, ?_⟩
    intro a ha hb
    simp only [List.mem_singleton] at hb
    subst hb
    exact hpq ha
  · intro q hq
    rw [hqueue] at hq
    rw [htimers]
    rcases List.mem_append.1 hq with h | h
    · obtain ⟨hno, t0, h0, hle⟩ := inv.settled q h
      exact ⟨fun x hx => hno x ((hkept x).1 hx).1, t0, h0, by omega⟩
    · simp only [List.mem_singleton] at h
      subst h
      obtain ⟨t0, h0, hd⟩ := inv.due τ hτ
      exact ⟨fun x hx => ((hkept x).1 hx).2, t0, h0, by omega⟩
  · intro q
    rw [hqueue, htimers]
    simp only [List.mem_append, List.mem_singleton]
    constructor
    · intro h
      rcases (inv.seen q).1 h with h1 | ⟨x, hx, hxp⟩
      · exact Or.inl (Or.inl h1)
      · by_cases hqp : q = τ.filePath
        · exact Or.inl (Or.inr hqp)
        · exact Or.inr ⟨x, (hkept x).2 ⟨hx, by rw [hxp]; exact hqp⟩, hxp⟩
    · rintro ((h | h) | ⟨x, hx, hxp⟩)
      · exact (inv.seen q).2 (Or.inl h)
      · exact (inv.seen q).2 (Or.inr ⟨τ, hτ, h.symm⟩)
      · exact (inv.seen q).2 (Or.inr ⟨x, ((hkept x).1 hx).1, hxp⟩)
  · exact inv.within

theorem debounceInv_room (interval : Nat) (allPaths : List GoString)
    (hist : List (Nat × GoString)) (now : Nat) (fw : FileWatcher) (τ : Timer)
    (inv : DebounceInv interval allPaths hist now fw) (hτ : τ ∈ fw.live)
    (hroom : allPaths.dedup.length ≤ changeQueueCap) :
    fw.changeQueue.length < changeQueueCap := by
  have hpq : τ.filePath ∉ fw.changeQueue := fun hmem => (inv.settled _ hmem).1 τ hτ rfl
  have hnd : (fw.changeQueue ++ [τ.filePath]).Nodup := by
    rw [List.nodup_append]
    refine ⟨inv.queueNodup, by simp, ?_⟩
    intro a ha hb
    simp only [List.mem_singleton] at hb
    subst hb
    exact hpq ha
  have hsub : ∀ x ∈ fw.changeQueue ++ [τ.filePath], x ∈ allPaths := by
    intro x hx
    apply inv.within
    rcases List.mem_append.1 hx with h | h
    · exact (inv.seen x).2 (Or.inl h)
    · simp only [List.mem_singleton] at h
      exact (inv.seen x).2 (Or.inr ⟨τ, hτ, h.symm⟩)
  have := nodup_length_le_dedup _ _ hnd hsub
  simp only [List.length_append, List.length_singleton] at this
  omega

theorem timers_same_path_iff (interval : Nat) (allPaths : List GoString)
    (hist : List (Nat × GoString)) (now : Nat) (fw : FileWatcher) (τ x : Timer)
    (inv : DebounceInv interval allPaths hist now fw) (hτ : τ ∈ fw.live)
    (hx : x ∈ fw.live) : x.id ≠ τ.id ↔ x.filePath ≠ τ.filePath := by
  constructor
  · intro h e
    exact h (congrArg Timer.id (List.inj_on_of_nodup_map inv.paths hx hτ e))
  · intro h e
    exact h (congrArg Timer.filePath (List.inj_on_of_nodup_map inv.ids hx hτ e))


theorem debounceInv_reorder (interval : Nat) (allPaths : List GoString)
    (hist : List (Nat × GoString)) (now t : Nat) (fw fw' : FileWatcher)
    (inv : DebounceInv interval allPaths hist now fw) (hnow : now ≤ t)
    (hperm : List.Perm fw'.live fw.live)
    (hfired : ∀ x ∈ fw'.fired, x.deadline ≤ t)
    (hmap : fw'.debounceMap = fw.debounceMap)
    (hnext : fw'.nextTimer = fw.nextTimer)
    (hqueue : fw'.changeQueue = fw.changeQueue)
    (hclosed : fw'.queueClosed = fw.queueClosed)
    (hpan : fw'.panicked = fw.panicked) :
    DebounceInv interval allPaths hist t fw' := by
  have hmem : ∀ x, x ∈ fw'.live ↔ x ∈ fw.live := fun x => hperm.mem_iff
  constructor
  · rw [hclosed]; exact inv.isOpen
  · rw [hpan]; exact inv.alive
  · intro x hx; rw [hnext]; exact inv.fresh x ((hmem x).1 hx)
  · exact ((hperm.map _).nodup_iff).2 inv.ids
  · exact ((hperm.map _).nodup_iff).2 inv.paths
  · rw [hmap]; exact inv.keys
  · intro p id
    rw [hmap, inv.mapTimers]
    constructor
    · rintro ⟨x, hx, h⟩; exact ⟨x, (hmem x).2 hx, h⟩
    · rintro ⟨x, hx, h⟩; exact ⟨x, (hmem x).1 hx, h⟩
  · intro x hx; exact inv.due x ((hmem x).1 hx)
  · exact hfired
  · rw [hqueue]; exact inv.queueNodup
  · intro p hp
    rw [hqueue] at hp
    obtain ⟨hno, t0, h0, hle⟩ := inv.settled p hp
    exact ⟨fun x hx => hno x ((hmem x).1 hx), t0, h0, by omega⟩
  · intro p
    rw [hqueue, inv.seen]
    constructor
    · rintro (h | ⟨x, hx, hxp⟩)
      · exact Or.inl h
      · exact Or.inr ⟨x, (hmem x).2 hx, hxp⟩
    · rintro (h | ⟨x, hx, hxp⟩)
      · exact Or.inl h
      · exact Or.inr ⟨x, (hmem x).1 hx, hxp⟩
  · exact inv.within

theorem stopTimer_eq_erase (l : List Timer) (τ : Timer) (hnd : (l.map (·.id)).Nodup)
    (hτ : τ ∈ l) : stopTimer l τ.id = l.erase τ := by
  rw [(List.Nodup.of_map _ hnd).erase_eq_filter, stopTimer]
  apply List.filter_congr
  intro x hx
  by_cases h : x = τ
  · subst h; simp
  · have hid : x.id ≠ τ.id := fun e => h (List.inj_on_of_nodup_map hnd hx hτ e)
    simp [h, hid]

theorem eraseP_eq_erase (l : List Timer) (id : Nat) (τ : Timer)
    (hfind : (l.find? fun t => t.id = id) = some τ) :
    (l.eraseP fun t => t.id = id) = l.erase τ := by
  induction l with
  | nil => simp at hfind
  | cons x xs ih =>
    by_cases hx : x.id = id
    · have : x = τ := by simpa [List.find?_cons, hx] using hfind
      subst this
      simp [hx]
    · have hrest : (xs.find? fun t => t.id = id) = some τ := by
        simpa [List.find?_cons, hx] using hfind
      have hτ : τ.id = id := by simpa using List.find?_some hrest
      have hne : x ≠ τ := fun e => hx (e ▸ hτ)
      rw [List.eraseP_cons_of_neg (by simpa using hx), ih hrest, List.erase_cons_tail]
      simpa using hne

theorem kept_after_stop (interval : Nat) (allPaths : List GoString)
    (hist : List (Nat × GoString)) (now t : Nat) (fw : FileWatcher) (p : GoString)
    (inv : DebounceInv interval allPaths hist now fw) (hnow : now ≤ t)
    (hspaced : ∀ t0, lastTime hist p = some t0 → t < t0 + interval) :
    List.Sublist
        (fw.fired ++ (match mapLookup fw.debounceMap p with
          | some id => stopTimer fw.timers id
          | none => fw.timers)) fw.live
    ∧ ∀ x, x ∈ fw.fired ++ (match mapLookup fw.debounceMap p with
          | some id => stopTimer fw.timers id
          | none => fw.timers) ↔ x ∈ fw.live ∧ x.filePath ≠ p := by
  have hfp : ∀ x ∈ fw.fired, x.filePath ≠ p := by
    intro x hx e
    obtain ⟨t0, h0, hd⟩ := inv.due x (List.mem_append_left _ hx)
    rw [e] at h0
    have h1 := hspaced t0 h0
    have h2 := inv.elapsed x hx
    omega
  cases h : mapLookup fw.debounceMap p with
  | none =>
    refine ⟨List.Sublist.refl _, fun x => ⟨fun hx => ⟨hx, ?_⟩, fun hx => hx.1⟩⟩
    intro e
    exact (mapLookup_none _ _).1 h x.id ((inv.mapTimers p x.id).2 ⟨x, hx, e, rfl⟩)
  | some id =>
    obtain ⟨τ, hτ, hτp, hτi⟩ := (inv.mapTimers p id).1 (mapLookup_some _ _ _ h)
    refine ⟨(List.Sublist.refl _).append (List.filter_sublist _), fun x => ?_⟩
    simp only [List.mem_append, mem_stopTimer, FileWatcher.live]
    constructor
    · rintro (hx | ⟨hx, hne⟩)
      · exact ⟨Or.inl hx, hfp x hx⟩
      · refine ⟨Or.inr hx, ?_⟩
        rw [← hτp]
        exact (timers_same_path_iff _ _ _ _ _ τ x inv hτ (List.mem_append_right _ hx)).1
          (by rw [hτi]; exact hne)
    · rintro ⟨hx | hx, hne⟩
      · exact Or.inl hx
      · refine Or.inr ⟨hx, ?_⟩
        rw [← hτi]
        exact (timers_same_path_iff _ _ _ _ _ τ x inv hτ (List.mem_append_right _ hx)).2
          (by rw [hτp]; exact hne)

theorem handleEvent_debounced (config : Config) (w : World) (now : Nat) (e : Event)
    (st : FileWatcher × Trace)
    (hign : FileWatcher.shouldIgnoreFile config e.Name = false)
    (hop : e.Op &&& debouncedOps ≠ 0) :
    (FileWatcher.handleEvent config w now e st).1.timers
        = (match mapLookup st.1.debounceMap e.Name with
            | some id => stopTimer st.1.timers id
            | none => st.1.timers)
          ++ [⟨st.1.nextTimer, e.Name, now + debounceInterval config⟩]
    ∧ (FileWatcher.handleEvent config w now e st).1.debounceMap
        = mapStore st.1.debounceMap e.Name st.1.nextTimer
    ∧ (FileWatcher.handleEvent config w now e st).1.nextTimer = st.1.nextTimer + 1
    ∧ (FileWatcher.handleEvent config w now e st).1.fired = st.1.fired := by
  have hc := addWatchRecursively_core config w e.Name st
  simp only [FileWatcher.core, Prod.mk.injEq] at hc
  obtain ⟨_, _, _, hm, ht, hn, _, _, hf⟩ := hc
  have hop' : e.Op &&& (opWrite ||| opCreate ||| opRemove ||| opRename) ≠ 0 := hop
  unfold FileWatcher.handleEvent
  rw [if_neg (by rw [hign]; exact Bool.false_ne_true), if_pos hop']
  split
  · simp only [FileWatcher.debounceChange, hm, ht, hn, hf, and_self]
  · exact ⟨rfl, rfl, rfl, rfl⟩

theorem debounceInv_event_step (config : Config) (w : World) (allPaths : List GoString)
    (hist : List (Nat × GoString)) (now t : Nat) (e : Event) (st : FileWatcher × Trace)
    (inv : DebounceInv (debounceInterval config) allPaths hist now st.1)
    (hnow : now ≤ t)
    (hign : FileWatcher.shouldIgnoreFile config e.Name = false)
    (hop : e.Op &&& debouncedOps ≠ 0) (hp : e.Name ∈ allPaths)
    (hspaced : ∀ t0, lastTime hist e.Name = some t0 → t < t0 + debounceInterval config) :
    DebounceInv (debounceInterval config) allPaths ((t, e.Name) :: hist) t
      (watcherStep config w st (.event t e)).1 := by
  have hstep : watcherStep config w st (.event t e) = FileWatcher.handleEvent config w t e st := by
    simp only [watcherStep, inv.alive, Bool.false_eq_true, if_false]
  rw [hstep]
  obtain ⟨h1, h2, h3, hf⟩ := handleEvent_debounced config w t e st hign hop
  obtain ⟨h4, h5, h6⟩ := handleEvent_queue config w t e st
  obtain ⟨k1, k2⟩ := kept_after_stop _ _ _ now t st.1 e.Name inv hnow hspaced
  refine debounceInv_event _ _ _ now t e.Name st.1 _ _ inv k1 k2 hp hnow hspaced ?_ hf h2 h3
    h4 h5 h6
  rw [FileWatcher.live, hf, h1, List.append_assoc]

theorem find_due (interval : Nat) (allPaths : List GoString)
    (hist : List (Nat × GoString)) (now t id : Nat) (fw : FileWatcher)
    (inv : DebounceInv interval allPaths hist now fw)
    (hany : fw.timers.any
      (fun timer => decide (timer.id = id) && decide (timer.deadline ≤ t)) = true) :
    ∃ τ, (fw.timers.find? fun t => t.id = id) = some τ ∧ τ ∈ fw.timers ∧ τ.id = id
      ∧ τ.deadline ≤ t := by
  obtain ⟨τ, hτ, hτ2⟩ := List.any_eq_true.1 hany
  simp only [Bool.and_eq_true, decide_eq_true_eq] at hτ2
  obtain ⟨hid, hdue⟩ := hτ2
  have hids : (fw.timers.map (·.id)).Nodup :=
    ((List.sublist_append_right fw.fired fw.timers).map _).nodup inv.ids
  refine ⟨τ, ?_, hτ, hid, hdue⟩
  cases hf : fw.timers.find? (fun t => decide (t.id = id)) with
  | none =>
    have := List.find?_eq_none.1 hf τ hτ
    simp [hid] at this
  | some τ' =>
    have h1 := List.find?_some hf
    have h2 := List.mem_of_find?_eq_some hf
    simp only [decide_eq_true_eq] at h1
    exact congrArg some (List.inj_on_of_nodup_map hids h2 hτ (by rw [h1, hid]))

theorem debounceInv_fires_step (config : Config) (w : World) (allPaths : List GoString)
    (hist : List (Nat × GoString)) (now t id : Nat) (st : FileWatcher × Trace)
    (inv : DebounceInv (debounceInterval config) allPaths hist now st.1)
    (hnow : now ≤ t)
    (hany : st.1.timers.any
      (fun timer => decide (timer.id = id) && decide (timer.deadline ≤ t)) = true) :
    DebounceInv (debounceInterval config) allPaths hist t
      (watcherStep config w st (.fires t id)).1 := by
  obtain ⟨τ, hfind, hτ, hid, hdue⟩ := find_due _ _ _ _ _ _ _ inv hany
  have hids : (st.1.timers.map (·.id)).Nodup :=
    ((List.sublist_append_right st.1.fired st.1.timers).map _).nodup inv.ids
  have hstep : watcherStep config w st (.fires t id)
      = ({ st.1 with timers := stopTimer st.1.timers id, fired := τ :: st.1.fired }, st.2) := by
    simp only [watcherStep, inv.alive, Bool.false_eq_true, if_false,
      timerFires_pending st.1 id τ hfind, Option.map_some', Option.getD_some]
  rw [hstep]
  refine debounceInv_reorder _ _ _ now t st.1 _ inv hnow ?_ ?_ rfl rfl rfl rfl rfl
  · show List.Perm (τ :: st.1.fired ++ stopTimer st.1.timers id) (st.1.fired ++ st.1.timers)
    rw [← hid, stopTimer_eq_erase _ _ hids hτ]
    exact List.perm_middle.symm.trans ((List.perm_cons_erase hτ).symm.append_left _)
  · intro x hx
    rcases List.mem_cons.1 hx with h | h
    · rw [h]; exact hdue
    · have := inv.elapsed x h
      omega

theorem debounceInv_runs_step (config : Config) (w : World) (allPaths : List GoString)
    (hist : List (Nat × GoString)) (now id : Nat) (st : FileWatcher × Trace)
    (hroom : allPaths.dedup.length ≤ changeQueueCap)
    (inv : DebounceInv (debounceInterval config) allPaths hist now st.1) :
    DebounceInv (debounceInterval config) allPaths hist now
      (watcherStep config w st (.runs id)).1 := by
  cases hf : st.1.fired.find? (fun t => decide (t.id = id)) with
  | none =>
    have hstep : watcherStep config w st (.runs id) = st := by
      simp only [watcherStep, inv.alive, Bool.false_eq_true, if_false,
        closureRuns_none st id hf, Option.getD_none]
    rw [hstep]; exact inv
  | some τ =>
    have hτf : τ ∈ st.1.fired := List.mem_of_find?_eq_some hf
    have hτ : τ ∈ st.1.live := List.mem_append_left _ hτf
    have hroom' := debounceInv_room _ _ _ _ _ τ inv hτ hroom
    have hnd : st.1.live.Nodup := List.Nodup.of_map _ inv.ids
    have hndf : st.1.fired.Nodup := (List.sublist_append_left st.1.fired st.1.timers).nodup hnd
    have hstep : watcherStep config w st (.runs id)
        = FileWatcher.timerFunc
            ({ st.1 with fired := st.1.fired.eraseP fun t => t.id = id }, st.2) τ.filePath := by
      simp only [watcherStep, inv.alive, Bool.false_eq_true, if_false,
        closureRuns_fired st id τ hf, Option.getD_some]
    rw [hstep]
    obtain ⟨h1, _, h3, h4, h5, h6, h7, h8⟩ :=
      timerFunc_open ({ st.1 with fired := st.1.fired.eraseP fun t => t.id = id }, st.2)
        τ.filePath inv.isOpen
    have h8' : (FileWatcher.timerFunc
        ({ st.1 with fired := st.1.fired.eraseP fun t => t.id = id }, st.2) τ.filePath).1.fired
        = st.1.fired.erase τ := by
      rw [h8]; exact eraseP_eq_erase _ _ _ hf
    refine debounceInv_closure _ _ _ now now st.1 _ τ (st.1.fired.erase τ ++ st.1.timers) inv
      hτ (inv.elapsed τ hτf) (Nat.le_refl _)
      ((List.erase_sublist τ st.1.fired).append (List.Sublist.refl _)) (fun x => ?_) ?_ ?_ h6 h7
      (h1 hroom').1 (h3.trans inv.isOpen.symm) h4
    · simp only [List.mem_append, hndf.mem_erase_iff, FileWatcher.live]
      constructor
      · rintro (⟨hne, hx⟩ | hx)
        · exact ⟨Or.inl hx, fun e =>
            hne (List.inj_on_of_nodup_map inv.paths (List.mem_append_left _ hx) hτ e)⟩
        · exact ⟨Or.inr hx, fun e => by
            have := List.inj_on_of_nodup_map inv.paths (List.mem_append_right _ hx) hτ e
            subst this
            exact (List.nodup_append.1 hnd).2.2 hτf hx⟩
      · rintro ⟨hx | hx, hne⟩
        · exact Or.inl ⟨fun e => hne (by rw [e]), hx⟩
        · exact Or.inr hx
    · rw [FileWatcher.live, h8', h5]
    · intro x hx
      rw [h8'] at hx
      exact List.mem_of_mem_erase hx

theorem expire_eq_fires_runs (config : Config) (w : World) (st : FileWatcher × Trace)
    (t id : Nat) (τ : Timer) (halive : st.1.panicked = false)
    (hfind : (st.1.timers.find? fun t => t.id = id) = some τ) :
    watcherStep config w st (.expire t id)
      = watcherStep config w (watcherStep config w st (.fires t id)) (.runs id) := by
  have hid : τ.id = id := by simpa using List.find?_some hfind
  have hfires : watcherStep config w st (.fires t id)
      = ({ st.1 with timers := stopTimer st.1.timers id, fired := τ :: st.1.fired }, st.2) := by
    simp only [watcherStep, halive, Bool.false_eq_true, if_false,
      timerFires_pending st.1 id τ hfind, Option.map_some', Option.getD_some]
  have hruns : FileWatcher.closureRuns
      ({ st.1 with timers := stopTimer st.1.timers id, fired := τ :: st.1.fired }, st.2) id
      = some (FileWatcher.timerFunc
          ({ st.1 with timers := stopTimer st.1.timers id }, st.2) τ.filePath) := by
    unfold FileWatcher.closureRuns
    simp only [List.find?_cons, hid, decide_True, List.eraseP_cons_of_pos]
  have hexp : watcherStep config w st (.expire t id) = (FileWatcher.fireTimer st id).getD st := by
    simp only [watcherStep, halive, Bool.false_eq_true, if_false]
  have hrun : ∀ s : FileWatcher × Trace, s.1.panicked = false →
      watcherStep config w s (.runs id) = (FileWatcher.closureRuns s id).getD s := by
    intro s hs
    simp only [watcherStep, hs, Bool.false_eq_true, if_false]
  rw [hfires,
    hrun ({ st.1 with timers := stopTimer st.1.timers id, fired := τ :: st.1.fired }, st.2)
      halive,
    hruns, hexp, fireTimer_pending st id τ hfind]
  rfl

theorem debounceInv_expire_step (config : Config) (w : World) (allPaths : List GoString)
    (hist : List (Nat × GoString)) (now t id : Nat) (st : FileWatcher × Trace)
    (hroom : allPaths.dedup.length ≤ changeQueueCap)
    (inv : DebounceInv (debounceInterval config) allPaths hist now st.1)
    (hnow : now ≤ t)
    (hany : st.1.timers.any
      (fun timer => decide (timer.id = id) && decide (timer.deadline ≤ t)) = true) :
    DebounceInv (debounceInterval config) allPaths hist t
      (watcherStep config w st (.expire t id)).1 := by
  obtain ⟨τ, hfind, _, _, _⟩ := find_due _ _ _ _ _ _ _ inv hany
  rw [expire_eq_fires_runs config w st t id τ inv.alive hfind]
  exact debounceInv_runs_step config w allPaths hist t id _ hroom
    (debounceInv_fires_step config w allPaths hist now t id st inv hnow hany)

theorem debounceInv_new (interval : Nat) (allPaths : List GoString) :
    DebounceInv interval allPaths [] 0 NewFileWatcher := by
  constructor <;> simp [NewFileWatcher, FileWatcher.live]

theorem debounce_run (config : Config) (w : World) (allPaths : List GoString)
    (hroom : allPaths.dedup.length ≤ changeQueueCap) (ops : List WatcherOp) :
    ∀ (hist : List (Nat × GoString)) (now : Nat) (st : FileWatcher × Trace),
      DebounceInv (debounceInterval config) allPaths hist now st.1 →
      validSchedule config w now st ops = true →
      (∀ te ∈ eventsOf ops, FileWatcher.shouldIgnoreFile config te.2.Name = false
        ∧ te.2.Op &&& debouncedOps ≠ 0 ∧ te.2.Name ∈ allPaths) →
      closelySpaced (debounceInterval config) hist (eventsOf ops) = true →
      ∀ k, ∃ hist' now',
        DebounceInv (debounceInterval config) allPaths hist' now'
          (watcherRun config w (ops.take k) st).1
        ∧ ∀ p, p ∈ hist'.map (·.2) ↔ p ∈ hist.map (·.2) ∨ p ∈ eventPaths (ops.take k) := by
  induction ops with
  | nil =>
    intro hist now st inv _ _ _ k
    refine ⟨hist, now, ?_, ?_⟩
    · simpa [watcherRun] using inv
    · intro p; simp [eventPaths, eventsOf]
  | cons op rest ih =>
    intro hist now st inv hvalid hkind hspaced k
    cases k with
    | zero =>
      refine ⟨hist, now, ?_, ?_⟩
      · simpa [watcherRun] using inv
      · intro p; simp [eventPaths, eventsOf]
    | succ k =>
      cases op with
      | event t e =>
        simp only [validSchedule, Bool.and_eq_true, decide_eq_true_eq] at hvalid
        simp only [eventsOf, closelySpaced, Bool.and_eq_true] at hspaced
        obtain ⟨hign, hop, hp⟩ := hkind (t, e) (by simp [eventsOf])
        have hsp : ∀ t0, lastTime hist e.Name = some t0 → t < t0 + debounceInterval config := by
          intro t0 h0
          have := hspaced.1
          rw [h0] at this
          simpa using this
        have inv' := debounceInv_event_step config w allPaths hist now t e st inv hvalid.1
          hign hop hp hsp
        obtain ⟨hist', now', hinv, hmem⟩ := ih ((t, e.Name) :: hist) t _ inv' hvalid.2
          (fun te hte => hkind te (by simp [eventsOf, hte])) hspaced.2 k
        refine ⟨hist', now', hinv, ?_⟩
        intro p
        rw [hmem]
        simp only [List.map_cons, List.mem_cons, List.take_succ_cons, eventPaths, eventsOf]
        tauto
      | expire t id =>
        simp only [validSchedule, Bool.and_eq_true, decide_eq_true_eq] at hvalid
        have inv' := debounceInv_expire_step config w allPaths hist now t id st hroom inv
          hvalid.1.1 hvalid.1.2
        obtain ⟨hist', now', hinv, hmem⟩ := ih hist t _ inv' hvalid.2
          (fun te hte => hkind te (by simpa [eventsOf] using hte))
          (by simpa [eventsOf] using hspaced) k
        refine ⟨hist', now', hinv, ?_⟩
        intro p
        rw [hmem]
        simp only [List.take_succ_cons, eventPaths, eventsOf]
      | fires t id =>
        simp only [validSchedule, Bool.and_eq_true, decide_eq_true_eq] at hvalid
        have inv' := debounceInv_fires_step config w allPaths hist now t id st inv
          hvalid.1.1 hvalid.1.2
        obtain ⟨hist', now', hinv, hmem⟩ := ih hist t _ inv' hvalid.2
          (fun te hte => hkind te (by simpa [eventsOf] using hte))
          (by simpa [eventsOf] using hspaced) k
        refine ⟨hist', now', hinv, ?_⟩
        intro p
        rw [hmem]
        simp only [List.take_succ_cons, eventPaths, eventsOf]
      | runs id =>
        simp only [validSchedule] at hvalid
        have inv' := debounceInv_runs_step config w allPaths hist now id st hroom inv
        obtain ⟨hist', now', hinv, hmem⟩ := ih hist now _ inv' hvalid
          (fun te hte => hkind te (by simpa [eventsOf] using hte))
          (by simpa [eventsOf] using hspaced) k
        refine ⟨hist', now', hinv, ?_⟩
        intro p
        rw [hmem]
        simp only [List.take_succ_cons, eventPaths, eventsOf]
      | take => simp [validSchedule] at hvalid
      | stop => simp [validSchedule] at hvalid

/-- C4. What holds: take a schedule of raw events, timers firing and timer
functions running, from a new watcher, in which instants do not decrease and
a timer fires only while pending and due; every event is a Write, Create,
Remove or Rename on a path that is not ignored; every event comes less than
the debounce interval after the previous event on the same path; and the
distinct paths fit in the change queue. Then once every timer has fired and
its function has run, the change queue holds each distinct path of the events
exactly once (it is a permutation of the paths without repetition): N events
on one path give one entry, and distinct paths give an entry each. After every
prefix of such a schedule there is at most one pending timer per path, the
debounce map has one entry per path, and it stores every pending timer.
The code at the failing input: when a write of `/w/a.go` is handled between
the firing of the timer of an earlier write and the run of that timer's
function (`timer.Stop()` returns false, which `debounceChange` does not look
at, and the function then deletes the map entry of the new timer), a third
write one second later starts a timer without stopping the second: two timers
are pending for `/w/a.go`, the map stores only the later one, and the three
writes end as three queue entries. -/
theorem debounce_coalesces (config : Config) (w : World) (ops : List WatcherOp) :
    (validSchedule config w 0 (NewFileWatcher, []) ops = true →
      (∀ te ∈ eventsOf ops, FileWatcher.shouldIgnoreFile config te.2.Name = false
        ∧ te.2.Op &&& debouncedOps ≠ 0) →
      closelySpaced (debounceInterval config) [] (eventsOf ops) = true →
      (eventPaths ops).dedup.length ≤ changeQueueCap →
      ((watcherRun config w ops (NewFileWatcher, [])).1.timers = [] →
        (watcherRun config w ops (NewFileWatcher, [])).1.fired = [] →
        List.Perm (watcherRun config w ops (NewFileWatcher, [])).1.changeQueue
          (eventPaths ops).dedup)
      ∧ ∀ k,
        ((watcherRun config w (ops.take k) (NewFileWatcher, [])).1.timers.map
          (fun timer => timer.filePath)).Nodup
        ∧ ((watcherRun config w (ops.take k) (NewFileWatcher, [])).1.debounceMap.map
          (fun entry => entry.1)).Nodup
        ∧ ∀ timer ∈ (watcherRun config w (ops.take k) (NewFileWatcher, [])).1.timers,
            (timer.filePath, timer.id)
              ∈ (watcherRun config w (ops.take k) (NewFileWatcher, [])).1.debounceMap)
    ∧ validSchedule (configOf "/w" "/srv" []) goneWorld 0 (NewFileWatcher, []) raceOps = true
    ∧ (watcherRun (configOf "/w" "/srv" []) goneWorld raceOps (NewFileWatcher, [])).1.timers
        = [⟨1, go "/w/a.go", 4000000000⟩, ⟨2, go "/w/a.go", 5000000000⟩]
    ∧ (watcherRun (configOf "/w" "/srv" []) goneWorld raceOps (NewFileWatcher, [])).1.debounceMap
        = [(go "/w/a.go", 2)]
    ∧ (watcherRun (configOf "/w" "/srv" []) goneWorld
        (raceOps ++ [.expire 4000000000 1, .expire 5000000000 2])
        (NewFileWatcher, [])).1.changeQueue
        = [go "/w/a.go", go "/w/a.go", go "/w/a.go"] := by
  refine ⟨?_, by decide, by decide, by decide, by decide⟩
  intro hvalid hkind hspaced hroom
  have hrun := debounce_run config w (eventPaths ops) hroom ops [] 0 (NewFileWatcher, [])
    (debounceInv_new _ _) hvalid
    (fun te hte => ⟨(hkind te hte).1, (hkind te hte).2,
      List.mem_map.2 ⟨te, hte, rfl⟩⟩) hspaced
  constructor
  · intro hdone hrun0
    obtain ⟨hist', now', hinv, hmem⟩ := hrun ops.length
    rw [List.take_length] at hinv hmem
    refine (List.perm_ext_iff_of_nodup hinv.queueNodup (List.nodup_dedup _)).2 fun p => ?_
    rw [List.mem_dedup]
    have hseen := hinv.seen p
    rw [FileWatcher.live, hdone, hrun0, hmem] at hseen
    simp only [List.map_nil, List.not_mem_nil, false_or, false_and, exists_false,
      or_false, List.append_nil] at hseen
    exact hseen.symm
  · intro k
    obtain ⟨hist', now', hinv, _⟩ := hrun k
    refine ⟨?_, hinv.keys, ?_⟩
    · exact ((List.sublist_append_right _ _).map _).nodup hinv.paths
    · intro timer ht
      exact (hinv.mapTimers _ _).2 ⟨timer, List.mem_append_right _ ht, rfl, rfl⟩

theorem debounce_coalesces_witness :
    validSchedule (configOf "/w" "/srv" []) goneWorld 0 (NewFileWatcher, []) burstOps = true
    ∧ closelySpaced (debounceInterval (configOf "/w" "/srv" [])) [] (eventsOf burstOps) = true
    ∧ (watcherRun (configOf "/w" "/srv" []) goneWorld burstOps (NewFileWatcher, [])).1.timers
        = []
    ∧ (watcherRun (configOf "/w" "/srv" []) goneWorld burstOps (NewFileWatcher, [])).1.fired
        = []
    ∧ List.Perm
        (watcherRun (configOf "/w" "/srv" []) goneWorld burstOps (NewFileWatcher, [])).1.changeQueue
        (eventPaths burstOps).dedup
    ∧ (watcherRun (configOf "/w" "/srv" []) goneWorld burstOps (NewFileWatcher, [])).1.changeQueue
        = [go "/w/b.go", go "/w/a.go"] :=
  ⟨by decide, by decide, by decide, by decide,
    ((debounce_coalesces (configOf "/w" "/srv" []) goneWorld burstOps).1 (by decide) (by decide)
      (by decide) (by decide)).1 (by decide) (by decide),
    by decide⟩

end SyncGo
